import Mathlib

/-!
# Verification of the financial projection engine (`src/utils.ts`)

This file is a shallow embedding of the pure projection engine of the
management-accounting dashboard: calendar helpers, the cost engine
(`getProjectMonthlyCost`, `getProjectActualCost`), the revenue engine
(`getMonthlyRevenue`), payment-date derivation (`getPaymentDate`), the
12-month cash-flow driver (`generateProjections`) and the day-level
distributor (`generateDailyCashFlow`).

Modelling conventions:

* JavaScript `number` arithmetic is modelled exactly: quantities the
  source keeps integral are `ℤ` (or `ℕ` for fields entered as nonnegative
  yen amounts / percentages / counts), and intermediate values the source
  lets become fractional (utilization products, hourly rates, the `* 1.1`
  tax markup, split ratios) are `ℚ`, with `Math.floor` becoming
  `Int.floor`.  Binary-float rounding of JS doubles is abstracted away:
  all arithmetic is exact.
* A JS `Date` is modelled by `JDate` (year, 0-based month, day of month).
  The `new Date(y, m, d)` constructor normalizes out-of-range month and
  day arguments by calendar arithmetic (e.g. day 0 is the last day of the
  previous month, day 32 of January is February 1); `mkDate` implements
  exactly that normalization.  `Date` comparison is timestamp comparison,
  i.e. lexicographic on (year, month, day) for normalized dates; time of
  day below day granularity is abstracted (dates sit at local midnight).
* Date-valued strings are modelled already split into their numeric
  components; an empty string (falsy in every guard of the source) is
  `Option.none`.  `parseLocalDate` of an empty string constructs
  `new Date()` (the current instant); the wall clock is threaded through
  as an explicit `today : JDate` parameter.
* String keys `"YYYY-MM"` of the sparse maps are modelled as the pair
  `(year, month)` of their numeric components (0-based month); the source
  always builds these keys with the same `${year}-${pad(month+1)}`
  template, so the string key and the pair are in bijection.
-/

/-- Leap-year test of the proleptic Gregorian calendar (what JS `Date`
implements). -/
def isLeapYear (y : ℤ) : Bool :=
  (y % 4 = 0 && y % 100 ≠ 0) || y % 400 = 0

/-- Number of days of month `m` (0-based: 0 = January … 11 = December) of
year `y`; only meaningful for `0 ≤ m ≤ 11`, defaulting to 31 elsewhere. -/
def daysInMonth (y m : ℤ) : ℤ :=
  if m = 1 then (if isLeapYear y then 29 else 28)
  else if m = 3 ∨ m = 5 ∨ m = 8 ∨ m = 10 then 30
  else 31

/-- A JS `Date`, at day granularity: `year`, 0-based `month`, 1-based
`day`.  Dates produced by `mkDate` are normalized: `0 ≤ month < 12` and
`1 ≤ day ≤ daysInMonth year month`. -/
structure JDate where
  year : ℤ
  month : ℤ
  day : ℤ
  deriving DecidableEq

/-- Total order key of a date: JS compares `Date`s by timestamp, which for
normalized dates is lexicographic on (year, month, day); `day < 32` makes
this affine encoding order-faithful. -/
def dateKey (d : JDate) : ℤ :=
  (d.year * 12 + d.month) * 32 + d.day

/-- JS `<` on `Date`s (as a `Bool`, mirroring its use in conditions). -/
def dltb (a b : JDate) : Bool :=
  dateKey a < dateKey b

/-- JS `<=` on `Date`s. -/
def dleb (a b : JDate) : Bool :=
  dateKey a ≤ dateKey b

/-- Day-of-month normalization: starting from year `y`, month `m`
(`0 ≤ m ≤ 11`) and an arbitrary day value `d`, roll backwards while
`d < 1` and forwards while `d` exceeds the month length, exactly as the JS
`Date` constructor resolves out-of-range day arguments.  `fuel` bounds the
recursion; `mkDate` always supplies enough fuel (`normDayAux_valid`). -/
def normDayAux : ℕ → ℤ → ℤ → ℤ → JDate
  | 0, y, m, d => ⟨y, m, d⟩
  | fuel + 1, y, m, d =>
    if d < 1 then
      let py := if m = 0 then y - 1 else y
      let pm := if m = 0 then 11 else m - 1
      normDayAux fuel py pm (d + daysInMonth py pm)
    else if daysInMonth y m < d then
      let ny := if m = 11 then y + 1 else y
      let nm := if m = 11 then 0 else m + 1
      normDayAux fuel ny nm (d - daysInMonth y m)
    else ⟨y, m, d⟩

/-- The JS `new Date(y, m, d)` constructor: normalize the month into
`[0, 12)` carrying into the year, then normalize the day. -/
def mkDate (y m d : ℤ) : JDate :=
  let k := y * 12 + m
  normDayAux (d.natAbs + 2) (k / 12) (k % 12) d

/-- What it means for a date to be normalized. -/
def JDate.Valid (d : JDate) : Prop :=
  0 ≤ d.month ∧ d.month < 12 ∧ 1 ≤ d.day ∧ d.day ≤ daysInMonth d.year d.month

instance (d : JDate) : Decidable d.Valid := by
  unfold JDate.Valid; infer_instance

/-! ## Data model (`src/types.ts`) -/

/-- Project status (`ProjectStatus`). -/
inductive ProjectStatus where
  | PreOrder
  | Ordered
  | Delivered
  | Lost
  deriving DecidableEq

/-- Flow revenue recognition policy (`RevenueRecognitionMethod`). -/
inductive RevenueRecognitionMethod where
  | Duration
  | Milestone
  deriving DecidableEq

/-- Ledger line category (`CashFlowCategory`). -/
inductive CashFlowCategory where
  | OperatingExpense
  | Tax
  | LoanRepayment
  | LoanIn
  | Investment
  | Other
  deriving DecidableEq

/-- Per-month override record of an employee (`MonthlyEmployeeData`). -/
structure MonthlyEmployeeData where
  cost : ℕ
  monthlyHours : ℕ
  deriving DecidableEq

/-- An employee (`Employee`); `monthlyData` is the sparse override map,
keyed by (year, 0-based month) in place of the `"YYYY-MM"` string key. -/
structure Employee where
  id : ℕ
  defaultMonthlyCost : ℕ
  defaultMonthlyHours : ℕ
  monthlyData : List ((ℤ × ℤ) × MonthlyEmployeeData)
  deriving DecidableEq

/-- A utilization assignment (`Assignment`); `utilizationRate` is a
percentage in `[0, 100]`. -/
structure Assignment where
  employeeId : ℕ
  utilizationRate : ℕ
  deriving DecidableEq

/-- A weekly work log (`WorkLog`); `weekStartDate` carries the parsed
components of the ISO date string (`none` = empty string). -/
structure WorkLog where
  id : ℕ
  projectId : ℕ
  employeeId : ℕ
  weekStartDate : Option (ℤ × ℤ × ℤ)
  actualHours : ℕ
  deriving DecidableEq

/-- Billing configuration (`BillingConfig`).  All optional numeric fields
are `ℕ` with `0` standing for `undefined`: the source only ever reads them
through `x || fallback`, which maps both `undefined` and `0` to the
fallback.  The source field `flowStartRatio` is called `flowStartPercent`
here (same meaning: the start-payment share in percent). -/
structure BillingConfig where
  flowSplit : Bool
  flowStartPercent : ℕ
  flowStartDelay : ℕ
  flowStartPayDay : ℕ
  flowEndDelay : ℕ
  flowEndPayDay : ℕ
  stockDelay : ℕ
  stockPayDay : ℕ
  deriving DecidableEq

/-- A project (`Project`).  Date strings are parsed components with
`none` = empty string; `timeChargePrices` is keyed by (year, 0-based
month); `revenueMethod` is `none` when unset. -/
structure Project where
  id : ℕ
  status : ProjectStatus
  useFlow : Bool
  useStock : Bool
  useTimeCharge : Bool
  revenueMethod : Option RevenueRecognitionMethod
  flowAmount : ℕ
  flowStartDate : Option (ℤ × ℤ × ℤ)
  flowEndDate : Option (ℤ × ℤ × ℤ)
  stockAmount : ℕ
  stockStartDate : Option (ℤ × ℤ × ℤ)
  timeChargePrices : List ((ℤ × ℤ) × ℕ)
  billingConfig : BillingConfig
  assignments : List Assignment
  isArchived : Bool
  deriving DecidableEq

/-- A ledger line (`CashFlowItem`); `periodStart`, `periodEnd` and
`targetMonth` carry the `"YYYY-MM"` components (year, 1-based month),
`paymentDate` the `"YYYY-MM-DD"` components; `payDay = 0` stands for
`undefined`. -/
structure CashFlowItem where
  category : CashFlowCategory
  amount : ℕ
  isRecurring : Bool
  periodStart : Option (ℤ × ℤ)
  periodEnd : Option (ℤ × ℤ)
  payDay : ℕ
  paymentDate : Option (ℤ × ℤ × ℤ)
  targetMonth : Option (ℤ × ℤ)
  deriving DecidableEq

/-- Application settings (`AppSettings`); `salesTargets` is keyed by
(year, 0-based month); `monthlySalesTarget = 0` stands for `undefined`. -/
structure AppSettings where
  salesTargets : List ((ℤ × ℤ) × ℕ)
  monthlySalesTarget : ℕ
  initialCashBalance : ℤ
  cashFlowItems : List CashFlowItem
  deriving DecidableEq

/-- Lookup in a sparse `"YYYY-MM"`-keyed map. -/
def lookupYM {α : Type} (l : List ((ℤ × ℤ) × α)) (year month : ℤ) : Option α :=
  (l.find? (fun kv => kv.1.1 == year && kv.1.2 == month)).map Prod.snd

/-- `parseLocalDate` on a nonempty `"YYYY-MM-DD"` string: month is 1-based
in the string, `new Date(y, m - 1, d)`. -/
def parseYmd (t : ℤ × ℤ × ℤ) : JDate :=
  mkDate t.1 (t.2.1 - 1) t.2.2

/-- `parseLocalDate`: an empty string (modelled `none`) yields
`new Date()`, i.e. the current instant `today`. -/
def parseLocalDate (today : JDate) : Option (ℤ × ℤ × ℤ) → JDate
  | none => today
  | some t => parseYmd t

/-- `getTotalDays(year, month)`: `new Date(year, month + 1, 0).getDate()`. -/
def getTotalDays (year month : ℤ) : ℤ :=
  (mkDate year (month + 1) 0).day

/-! ## Cost engine -/

/-- `getEmployeeMonthlyData`: per-month override or defaults.  (The source
reads `data?.cost ?? default` per field, but an entry of the override map
always carries both fields, so the whole-record fallback is the same.) -/
def getEmployeeMonthlyData (employee : Employee) (year month : ℤ) :
    MonthlyEmployeeData :=
  match lookupYM employee.monthlyData year month with
  | some data => data
  | none => ⟨employee.defaultMonthlyCost, employee.defaultMonthlyHours⟩

/-- The assignment-based cost sum of `getProjectMonthlyCost` (the
`forEach` accumulation, before the final `Math.floor`): employees absent
from the collection are skipped, utilization is a percentage. -/
def assignmentsCost (p : Project) (employees : List Employee)
    (year month : ℤ) : ℚ :=
  (p.assignments.map (fun assign =>
    match employees.find? (fun e => e.id == assign.employeeId) with
    | some emp =>
        ((getEmployeeMonthlyData emp year month).cost : ℚ) *
          ((assign.utilizationRate : ℚ) / 100)
    | none => 0)).sum

/-- `getProjectMonthlyCost`: plan cost from assignments, gated by the
flow window (or the stock start for pure-stock projects, or the absence
of any active contract kind). -/
def getProjectMonthlyCost (p : Project) (employees : List Employee)
    (year month : ℤ) : ℤ :=
  let mStart := mkDate year month 1
  let mEnd := mkDate year (month + 1) 0
  let blocked : Bool :=
    match p.useFlow, p.flowStartDate, p.flowEndDate with
    | true, some sd, some ed =>
        -- outside the flow window: `mEnd < s || mStart > e`
        dltb mEnd (parseYmd sd) || dltb (parseYmd ed) mStart
    | true, _, _ => false
    | false, _, _ =>
        if p.useStock then
          match p.stockStartDate with
          | some sd => dltb mEnd (parseYmd sd)
          | none => false
        else
          !p.useTimeCharge
  if blocked then 0
  else Int.floor (assignmentsCost p employees year month)

/-- The work-log cost sum of `getProjectActualCost` (before the final
`Math.floor`): filter this project's logs whose week start falls in the
target month, then hours × derived hourly rate. -/
def actualCostSum (today : JDate) (p : Project) (employees : List Employee)
    (workLogs : List WorkLog) (year month : ℤ) : ℚ :=
  let targetLogs := workLogs.filter (fun l =>
    l.projectId == p.id &&
      (let d := parseLocalDate today l.weekStartDate
       d.year == year && d.month == month))
  (targetLogs.map (fun log =>
    match employees.find? (fun e => e.id == log.employeeId) with
    | some emp =>
        let md := getEmployeeMonthlyData emp year month
        let hourlyRate : ℚ :=
          if 0 < md.monthlyHours then (md.cost : ℚ) / (md.monthlyHours : ℚ) else 0
        (log.actualHours : ℚ) * hourlyRate
    | none => 0)).sum

/-- `getProjectActualCost`.  `today` materializes the wall clock read by
`parseLocalDate` on an empty week-start string. -/
def getProjectActualCost (today : JDate) (p : Project)
    (employees : List Employee) (workLogs : List WorkLog)
    (year month : ℤ) : ℤ :=
  Int.floor (actualCostSum today p employees workLogs year month)

/-! ## Revenue engine

`getMonthlyRevenue` sums one contribution per active contract kind; each
contribution is an integer, so the source's final `Math.floor` is the
identity and the three addends below reconstitute it exactly. -/

/-- The Flow contribution of `getMonthlyRevenue` (section `1. Flow
Revenue` of the source): Milestone = start/end billing events, Duration =
equal monthly proration with the remainder on the last month. -/
def flowRevenueAt (p : Project) (year month : ℤ) : ℤ :=
  match p.useFlow, p.flowStartDate, p.flowEndDate with
  | true, some sd, some ed =>
    let s := parseYmd sd
    let e := parseYmd ed
    if p.revenueMethod = some RevenueRecognitionMethod.Milestone then
      let startAmount : ℤ :=
        Int.floor ((p.flowAmount : ℚ) * ((p.billingConfig.flowStartPercent : ℚ) / 100))
      let startPart : ℤ :=
        if s.year = year ∧ s.month = month then
          (if p.billingConfig.flowSplit then startAmount else 0)
        else 0
      let endPart : ℤ :=
        if e.year = year ∧ e.month = month then
          (if p.billingConfig.flowSplit then (p.flowAmount : ℤ) - startAmount
           else (p.flowAmount : ℤ))
        else 0
      startPart + endPart
    else
      let startMonthIndex := s.year * 12 + s.month
      let endMonthIndex := e.year * 12 + e.month
      let currentMonthIndex := year * 12 + month
      if startMonthIndex ≤ currentMonthIndex ∧ currentMonthIndex ≤ endMonthIndex then
        let totalMonths := endMonthIndex - startMonthIndex + 1
        if 0 < totalMonths then
          let baseAmount := (p.flowAmount : ℤ) / totalMonths
          let remainder := (p.flowAmount : ℤ) % totalMonths
          if currentMonthIndex = endMonthIndex then baseAmount + remainder
          else baseAmount
        else 0
      else 0
  | _, _, _ => 0

/-- The Stock contribution of `getMonthlyRevenue`: the full monthly
amount in every month whose end is on or after the stock start. -/
def stockRevenueAt (p : Project) (year month : ℤ) : ℤ :=
  match p.useStock, p.stockStartDate with
  | true, some sd =>
      if dleb (parseYmd sd) (mkDate year (month + 1) 0) then (p.stockAmount : ℤ)
      else 0
  | _, _ => 0

/-- The Time-charge contribution of `getMonthlyRevenue`: the manually
entered amount for the month key, if any.  (The source guard `if (amount)`
also drops an explicit `0` entry, which contributes `0` either way.) -/
def timeChargeAt (p : Project) (year month : ℤ) : ℤ :=
  if p.useTimeCharge then
    match lookupYM p.timeChargePrices year month with
    | some amount => (amount : ℤ)
    | none => 0
  else 0

/-- `getMonthlyRevenue(project, date)`. -/
def getMonthlyRevenue (p : Project) (date : JDate) : ℤ :=
  flowRevenueAt p date.year date.month + stockRevenueAt p date.year date.month +
    timeChargeAt p date.year date.month

/-! ## Payment dates -/

/-- `getPaymentDate(year, month, delay, day)`: shift `delay` months from
`(year, month)`, then resolve `day` (99 = last day of the shifted month,
otherwise `setDate(day)` with JS rollover semantics). -/
def getPaymentDate (year month delay day : ℤ) : JDate :=
  let targetDate := mkDate year (month + delay) 1
  if day = 99 then mkDate targetDate.year (targetDate.month + 1) 0
  else mkDate targetDate.year targetDate.month day

/-! ## Monthly aggregation (`generateProjections`)

The driver iterates 12 months from the term start, threading the cash
balance.  Its per-month computation is split below into one definition
per accumulator of the source loop; `monthRecordAt` assembles the output
record (the `month` display label of the source record is presentation
only and omitted).  `today` materializes the `new Date()` read used for
the past/future (actual/plan) switch. -/

/-- First day of the current calendar month at evaluation time. -/
def currentMonthStart (today : JDate) : JDate :=
  mkDate today.year today.month 1

/-- Total recognized revenue of a month: `revenue += getMonthlyRevenue`. -/
def monthRevenue (projects : List Project) (d : JDate) : ℤ :=
  (projects.map (fun p => getMonthlyRevenue p d)).sum

/-- `confirmedRevenue`: projects with status Ordered or Delivered. -/
def monthConfirmedRevenue (projects : List Project) (d : JDate) : ℤ :=
  (projects.map (fun p =>
    if p.status = ProjectStatus.Ordered ∨ p.status = ProjectStatus.Delivered then
      getMonthlyRevenue p d
    else 0)).sum

/-- `potentialRevenue`: projects with status PreOrder. -/
def monthPotentialRevenue (projects : List Project) (d : JDate) : ℤ :=
  (projects.map (fun p =>
    if p.status = ProjectStatus.PreOrder then getMonthlyRevenue p d else 0)).sum

/-- The per-project stock share of the flow/stock split (`sPart` of the
source): start from the stock amount capped at recognized revenue, then
override for pure-stock (everything) and hybrid (full stock amount while
the stock phase is active — parsing an absent stock start date falls back
to `new Date()`, i.e. `today`). -/
def stockPartOf (today : JDate) (p : Project) (d : JDate) : ℤ :=
  let rev := getMonthlyRevenue p d
  let sPart0 : ℤ := if p.useStock then (p.stockAmount : ℤ) else 0
  let sPart1 : ℤ := if rev < sPart0 then rev else sPart0
  if p.useStock && !p.useFlow then rev
  else if p.useStock && p.useFlow then
    (let s := parseLocalDate today p.stockStartDate
     let mEnd := mkDate d.year (d.month + 1) 0
     if dleb s mEnd then (p.stockAmount : ℤ) else 0)
  else sPart1

/-- `stockRevenue` accumulator. -/
def monthStockRevenue (today : JDate) (projects : List Project) (d : JDate) : ℤ :=
  (projects.map (fun p => stockPartOf today p d)).sum

/-- `flowRevenue` accumulator: per project, recognized revenue minus its
stock share. -/
def monthFlowRevenue (today : JDate) (projects : List Project) (d : JDate) : ℤ :=
  (projects.map (fun p => getMonthlyRevenue p d - stockPartOf today p d)).sum

/-- The P&L labor cost of the month at `d` (first-of-month date): actual
cost for months strictly before the current calendar month, planned cost
otherwise. -/
def monthLaborCost (today : JDate) (projects : List Project)
    (employees : List Employee) (workLogs : List WorkLog) (d : JDate) : ℤ :=
  (projects.map (fun p =>
    if dltb d (currentMonthStart today) then
      getProjectActualCost today p employees workLogs d.year d.month
    else
      getProjectMonthlyCost p employees d.year d.month)).sum

/-- The sales target of a month:
`salesTargets[key] || monthlySalesTarget || 0` (an explicit `0` entry is
falsy and falls through, and `monthlySalesTarget = 0` models both the
absent and the zero default). -/
def monthTarget (settings : AppSettings) (d : JDate) : ℤ :=
  match lookupYM settings.salesTargets d.year d.month with
  | some t => if t ≠ 0 then (t : ℤ) else (settings.monthlySalesTarget : ℤ)
  | none => (settings.monthlySalesTarget : ℤ)

/-- Flow start-payment cash inflow of a project for iteration month
`(year, month)` (a `ℚ`: the source adds the unrounded
`flowAmount * ratio` to `cashIn`). -/
def flowStartCashQ (p : Project) (year month : ℤ) : ℚ :=
  if p.useFlow then
    match p.flowStartDate with
    | some sd =>
        let s := parseYmd sd
        let sPayDate := getPaymentDate s.year s.month
          (p.billingConfig.flowStartDelay : ℤ)
          (if p.billingConfig.flowStartPayDay = 0 then 99
           else (p.billingConfig.flowStartPayDay : ℤ))
        if sPayDate.year = year ∧ sPayDate.month = month then
          (if p.billingConfig.flowSplit then
            (p.flowAmount : ℚ) * ((p.billingConfig.flowStartPercent : ℚ) / 100)
           else 0)
        else 0
    | none => 0
  else 0

/-- Flow end-payment cash inflow of a project for iteration month
`(year, month)`: the complementary split share, or the lump sum. -/
def flowEndCashQ (p : Project) (year month : ℤ) : ℚ :=
  if p.useFlow then
    match p.flowEndDate with
    | some ed =>
        let e := parseYmd ed
        let ePayDate := getPaymentDate e.year e.month
          (p.billingConfig.flowEndDelay : ℤ)
          (if p.billingConfig.flowEndPayDay = 0 then 99
           else (p.billingConfig.flowEndPayDay : ℤ))
        if ePayDate.year = year ∧ ePayDate.month = month then
          (if p.billingConfig.flowSplit then
            (p.flowAmount : ℚ) *
              (((100 : ℚ) - (p.billingConfig.flowStartPercent : ℚ)) / 100)
           else (p.flowAmount : ℚ))
        else 0
    | none => 0
  else 0

/-- Stock / time-charge cash inflow for iteration month `(year, month)`:
the recognized revenue of `stockDelay` months earlier, when positive (no
payment-date check in the monthly path). -/
def stockTimeChargeCash (p : Project) (year month : ℤ) : ℤ :=
  if (p.useStock && p.stockStartDate.isSome) || p.useTimeCharge then
    let targetRevenueMonth := mkDate year (month - (p.billingConfig.stockDelay : ℤ)) 1
    let rev := getMonthlyRevenue p targetRevenueMonth
    if 0 < rev then rev else 0
  else 0

/-- The month's raw `cashIn` accumulator, before the 10% tax markup. -/
def monthCashInQ (projects : List Project) (year month : ℤ) : ℚ :=
  (projects.map (fun p =>
    flowStartCashQ p year month + flowEndCashQ p year month +
      (stockTimeChargeCash p year month : ℚ))).sum

/-- `cashIn = Math.floor(cashIn * 1.1)`: consumption-tax markup. -/
def monthCashIn (projects : List Project) (year month : ℤ) : ℤ :=
  Int.floor (monthCashInQ projects year month * (11 / 10))

/-- Whether a ledger item occurs in the month of (first-of-month) `d`:
recurring items by their `periodStart`/`periodEnd` window, one-time items
by `paymentDate` (or the legacy `targetMonth`). -/
def cashFlowItemOccurs (item : CashFlowItem) (d : JDate) : Bool :=
  if item.isRecurring then
    match item.periodStart with
    | some ps =>
        let start := mkDate ps.1 (ps.2 - 1) 1
        let stop :=
          match item.periodEnd with
          | some pe => mkDate pe.1 (pe.2 - 1) 1
          | none => mkDate 9999 11 31
        dleb start d && dleb d stop
    | none => false
  else
    match item.paymentDate with
    | some pd =>
        (parseYmd pd).year == d.year && (parseYmd pd).month == d.month
    | none =>
        match item.targetMonth with
        | some tm =>
            (mkDate tm.1 (tm.2 - 1) 1).year == d.year &&
              (mkDate tm.1 (tm.2 - 1) 1).month == d.month
        | none => false

/-- `sga` bucket: operating expenses, plus the default branch for any
category that is none of Tax/LoanRepayment/Investment/LoanIn. -/
def monthSga (settings : AppSettings) (d : JDate) : ℤ :=
  (settings.cashFlowItems.map (fun item =>
    if cashFlowItemOccurs item d then
      match item.category with
      | CashFlowCategory.OperatingExpense => (item.amount : ℤ)
      | CashFlowCategory.Other => (item.amount : ℤ)
      | _ => 0
    else 0)).sum

/-- `taxRepayment` bucket: taxes and loan principal repayments. -/
def monthTaxRepayment (settings : AppSettings) (d : JDate) : ℤ :=
  (settings.cashFlowItems.map (fun item =>
    if cashFlowItemOccurs item d then
      match item.category with
      | CashFlowCategory.Tax => (item.amount : ℤ)
      | CashFlowCategory.LoanRepayment => (item.amount : ℤ)
      | _ => 0
    else 0)).sum

/-- `investment` bucket. -/
def monthInvestment (settings : AppSettings) (d : JDate) : ℤ :=
  (settings.cashFlowItems.map (fun item =>
    if cashFlowItemOccurs item d then
      match item.category with
      | CashFlowCategory.Investment => (item.amount : ℤ)
      | _ => 0
    else 0)).sum

/-- `financialIn` bucket: loan-in items add to inflow. -/
def monthFinancialIn (settings : AppSettings) (d : JDate) : ℤ :=
  (settings.cashFlowItems.map (fun item =>
    if cashFlowItemOccurs item d then
      match item.category with
      | CashFlowCategory.LoanIn => (item.amount : ℤ)
      | _ => 0
    else 0)).sum

/-- Labor cost paid this month: the previous month's labor cost,
actual-or-planned by the previous month's own past/future test. -/
def monthPaidCost (today : JDate) (projects : List Project)
    (employees : List Employee) (workLogs : List WorkLog) (d : JDate) : ℤ :=
  let prevMonth := mkDate d.year (d.month - 1) 1
  (projects.map (fun p =>
    if dltb prevMonth (currentMonthStart today) then
      getProjectActualCost today p employees workLogs prevMonth.year prevMonth.month
    else
      getProjectMonthlyCost p employees prevMonth.year prevMonth.month)).sum

/-- One record of the 12-month projection output. -/
structure MonthRecord where
  date : JDate
  revenue : ℤ
  target : ℤ
  confirmedRevenue : ℤ
  potentialRevenue : ℤ
  flowRevenue : ℤ
  stockRevenue : ℤ
  cost : ℤ
  sga : ℤ
  taxRepayment : ℤ
  investment : ℤ
  cashIn : ℤ
  financialIn : ℤ
  totalCashIn : ℤ
  totalCashOut : ℤ
  cashBalance : ℤ
  cashBalanceChange : ℤ
  deriving DecidableEq

/-- The first day of term month `i` (0-based iteration index):
`new Date(termStart.getFullYear(), termStart.getMonth() + i, 1)`. -/
def termMonthDate (termStart : JDate) (i : ℕ) : JDate :=
  mkDate termStart.year (termStart.month + (i : ℤ)) 1

/-- `totalCashIn = cashIn + financialIn` of the month at `d`. -/
def monthTotalCashIn (projects : List Project) (settings : AppSettings)
    (d : JDate) : ℤ :=
  monthCashIn projects d.year d.month + monthFinancialIn settings d

/-- `totalCashOut = paidCost + sga + taxRepayment + investment` of the
month at `d`. -/
def monthTotalCashOut (today : JDate) (projects : List Project)
    (employees : List Employee) (workLogs : List WorkLog)
    (settings : AppSettings) (d : JDate) : ℤ :=
  monthPaidCost today projects employees workLogs d + monthSga settings d +
    monthTaxRepayment settings d + monthInvestment settings d

/-- The net cash change (`cashBalanceChange`) of term month `i`. -/
def monthChange (today : JDate) (projects : List Project)
    (employees : List Employee) (workLogs : List WorkLog)
    (termStart : JDate) (settings : AppSettings) (i : ℕ) : ℤ :=
  monthTotalCashIn projects settings (termMonthDate termStart i) -
    monthTotalCashOut today projects employees workLogs settings
      (termMonthDate termStart i)

/-- The month record of iteration `i` (0-based); `newBalance` is the
running balance after this month's change has been applied (the source
pushes the record after `currentCash += cashBalanceChange`). -/
def monthRecordAt (today : JDate) (projects : List Project)
    (employees : List Employee) (workLogs : List WorkLog)
    (termStart : JDate) (settings : AppSettings) (i : ℕ)
    (newBalance : ℤ) : MonthRecord :=
  let d := termMonthDate termStart i
  { date := d
    revenue := monthRevenue projects d
    target := monthTarget settings d
    confirmedRevenue := monthConfirmedRevenue projects d
    potentialRevenue := monthPotentialRevenue projects d
    flowRevenue := monthFlowRevenue today projects d
    stockRevenue := monthStockRevenue today projects d
    cost := monthPaidCost today projects employees workLogs d
    sga := monthSga settings d
    taxRepayment := monthTaxRepayment settings d
    investment := monthInvestment settings d
    cashIn := monthCashIn projects d.year d.month
    financialIn := monthFinancialIn settings d
    totalCashIn := monthTotalCashIn projects settings d
    totalCashOut := monthTotalCashOut today projects employees workLogs settings d
    cashBalance := newBalance
    cashBalanceChange := monthChange today projects employees workLogs termStart
      settings i }

/-- The 12-iteration loop: `i` is the iteration index, `n` the remaining
count, `cash` the running balance (`currentCash`). -/
def generateProjectionsAux (today : JDate) (projects : List Project)
    (employees : List Employee) (workLogs : List WorkLog)
    (termStart : JDate) (settings : AppSettings) :
    ℕ → ℕ → ℤ → List MonthRecord
  | _, 0, _ => []
  | i, n + 1, cash =>
      let newCash := cash +
        monthChange today projects employees workLogs termStart settings i
      monthRecordAt today projects employees workLogs termStart settings i newCash ::
        generateProjectionsAux today projects employees workLogs termStart settings
          (i + 1) n newCash

/-- `generateProjections`: 12 months from the term start, balance seeded
from `settings.initialCashBalance`. -/
def generateProjections (today : JDate) (projects : List Project)
    (employees : List Employee) (workLogs : List WorkLog)
    (termStart : JDate) (settings : AppSettings) : List MonthRecord :=
  generateProjectionsAux today projects employees workLogs termStart settings
    0 12 settings.initialCashBalance

/-! ## Daily distribution (`generateDailyCashFlow`)

The source accumulates day-indexed changes into a dictionary and then
walks days 1..N.  Addition being commutative, the dictionary entry of a
day equals the sum of the per-project and per-item contributions to that
day, which is how `dailyChangeAt` is organized. -/

/-- The start-payment amount the daily path uses (`amt`). -/
def flowStartDailyAmtQ (p : Project) : ℚ :=
  if p.billingConfig.flowSplit then
    (p.flowAmount : ℚ) * ((p.billingConfig.flowStartPercent : ℚ) / 100)
  else 0

/-- The end-payment amount the daily path uses (`amt`). -/
def flowEndDailyAmtQ (p : Project) : ℚ :=
  if p.billingConfig.flowSplit then
    (p.flowAmount : ℚ) * (((100 : ℚ) - (p.billingConfig.flowStartPercent : ℚ)) / 100)
  else (p.flowAmount : ℚ)

/-- Daily contribution of a project's flow start payment to `day`:
posted (with the 10% markup floored per event) on the payment date's day
when that date falls in the target month and the amount is positive. -/
def flowStartDaily (p : Project) (year month day : ℤ) : ℤ :=
  if p.useFlow then
    match p.flowStartDate with
    | some sd =>
        let s := parseYmd sd
        let sPayDate := getPaymentDate s.year s.month
          (p.billingConfig.flowStartDelay : ℤ)
          (if p.billingConfig.flowStartPayDay = 0 then 99
           else (p.billingConfig.flowStartPayDay : ℤ))
        if sPayDate.year = year ∧ sPayDate.month = month ∧ sPayDate.day = day ∧
            0 < flowStartDailyAmtQ p then
          Int.floor (flowStartDailyAmtQ p * (11 / 10))
        else 0
    | none => 0
  else 0

/-- Daily contribution of a project's flow end payment to `day`. -/
def flowEndDaily (p : Project) (year month day : ℤ) : ℤ :=
  if p.useFlow then
    match p.flowEndDate with
    | some ed =>
        let e := parseYmd ed
        let ePayDate := getPaymentDate e.year e.month
          (p.billingConfig.flowEndDelay : ℤ)
          (if p.billingConfig.flowEndPayDay = 0 then 99
           else (p.billingConfig.flowEndPayDay : ℤ))
        if ePayDate.year = year ∧ ePayDate.month = month ∧ ePayDate.day = day ∧
            0 < flowEndDailyAmtQ p then
          Int.floor (flowEndDailyAmtQ p * (11 / 10))
        else 0
    | none => 0
  else 0

/-- Daily contribution of a project's stock/time-charge payment to `day`:
unlike the monthly path, the daily path derives the payment date from
`stockDelay`/`stockPayDay` and requires it to fall in the target month. -/
def stockDaily (p : Project) (year month day : ℤ) : ℤ :=
  if (p.useStock && p.stockStartDate.isSome) || p.useTimeCharge then
    let delay := (p.billingConfig.stockDelay : ℤ)
    let payDay : ℤ :=
      if p.billingConfig.stockPayDay = 0 then 99 else (p.billingConfig.stockPayDay : ℤ)
    let targetRevMonth := mkDate year (month - delay) 1
    let rev := getMonthlyRevenue p targetRevMonth
    if 0 < rev then
      let pd := getPaymentDate targetRevMonth.year targetRevMonth.month delay payDay
      if pd.year = year ∧ pd.month = month ∧ pd.day = day then
        Int.floor ((rev : ℚ) * (11 / 10))
      else 0
    else 0
  else 0

/-- The day a ledger item posts on in month `(year, month)` (meaningful
when it occurs): recurring items at `payDay` (99 = last day, absent = 25),
one-time items at their payment date's day (or day 1 via `targetMonth`). -/
def cashFlowItemDay (item : CashFlowItem) (year month : ℤ) : ℤ :=
  if item.isRecurring then
    (if item.payDay = 99 then getTotalDays year month
     else if item.payDay = 0 then 25 else (item.payDay : ℤ))
  else
    match item.paymentDate with
    | some pd => (parseYmd pd).day
    | none => 1

/-- Daily contribution of a ledger item to `day`, signed by category
(loan-in positive, everything else negative). -/
def itemDaily (item : CashFlowItem) (year month day : ℤ) : ℤ :=
  if cashFlowItemOccurs item (mkDate year month 1) ∧
      cashFlowItemDay item year month = day then
    (if item.category = CashFlowCategory.LoanIn then (item.amount : ℤ)
     else -(item.amount : ℤ))
  else 0

/-- The total change posted to one day of the target month
(`dailyChanges[d] || 0`). -/
def dailyChangeAt (date : JDate) (projects : List Project)
    (settings : AppSettings) (day : ℤ) : ℤ :=
  (projects.map (fun p =>
    flowStartDaily p date.year date.month day +
      flowEndDaily p date.year date.month day +
      stockDaily p date.year date.month day)).sum +
  (settings.cashFlowItems.map (fun item =>
    itemDaily item date.year date.month day)).sum

/-- One record of the day-level output. -/
structure DayRecord where
  day : ℤ
  change : ℤ
  balance : ℤ
  deriving DecidableEq

/-- The day walk: `n` days remaining, current day `dday`, balance `bal`. -/
def generateDailyCashFlowAux (date : JDate) (projects : List Project)
    (settings : AppSettings) : ℕ → ℤ → ℤ → List DayRecord
  | 0, _, _ => []
  | n + 1, dday, bal =>
      let change := dailyChangeAt date projects settings dday
      let nb := bal + change
      ⟨dday, change, nb⟩ ::
        generateDailyCashFlowAux date projects settings n (dday + 1) nb

/-- `generateDailyCashFlow(date, projects, settings, initialBalance)`:
daily changes and running balance over days 1..N of the month of `date`. -/
def generateDailyCashFlow (date : JDate) (projects : List Project)
    (settings : AppSettings) (initialBalance : ℤ) : List DayRecord :=
  generateDailyCashFlowAux date projects settings
    (getTotalDays date.year date.month).toNat 1 initialBalance

/-! ## Sample inputs used by the concrete witnesses -/

/-- A neutral billing configuration (lump payment, no delays). -/
def lumpBilling : BillingConfig := ⟨false, 0, 0, 0, 0, 0, 0, 0⟩

/-- A flow-only project on the Duration method: 1,000,001 yen over
Jan–Jul 2025 (7 months), the spec's own exactness example. -/
def sampleDuration : Project :=
  { id := 1, status := ProjectStatus.Ordered, useFlow := true,
    useStock := false, useTimeCharge := false,
    revenueMethod := some RevenueRecognitionMethod.Duration,
    flowAmount := 1000001,
    flowStartDate := some (2025, 1, 1), flowEndDate := some (2025, 7, 31),
    stockAmount := 0, stockStartDate := none, timeChargePrices := [],
    billingConfig := lumpBilling,
    assignments := [⟨7, 50⟩], isArchived := false }

/-- A flow-only project on the Milestone method: 6,000,000 yen Jan–Jun
2025, 50/50 split, paid at month ends with no delay (the spec's
end-to-end scenario). -/
def sampleMilestone : Project :=
  { id := 2, status := ProjectStatus.Ordered, useFlow := true,
    useStock := false, useTimeCharge := false,
    revenueMethod := some RevenueRecognitionMethod.Milestone,
    flowAmount := 6000000,
    flowStartDate := some (2025, 1, 1), flowEndDate := some (2025, 6, 30),
    stockAmount := 0, stockStartDate := none, timeChargePrices := [],
    billingConfig := ⟨true, 50, 0, 99, 0, 99, 0, 0⟩,
    assignments := [], isArchived := false }

/-- An employee costing 500,000 yen / 160 h per month. -/
def sampleEmployee : Employee := ⟨7, 500000, 160, []⟩

/-- Empty settings with a seed balance of 1,000 yen. -/
def sampleSettings : AppSettings := ⟨[], 0, 1000, []⟩

/-- Spec-side: the year of the calendar month `delay` months after
(year, month). -/
def shiftedYear (year month delay : ℤ) : ℤ :=
  (year * 12 + month + delay) / 12

/-- Spec-side: the (0-based, normalized) month `delay` months after
(year, month). -/
def shiftedMonth (year month delay : ℤ) : ℤ :=
  (year * 12 + month + delay) % 12

/-- A Lost, archived time-charge project with 500 yen of revenue in
January 2025. -/
def sampleLost : Project :=
  { id := 3, status := ProjectStatus.Lost, useFlow := false,
    useStock := false, useTimeCharge := true, revenueMethod := none,
    flowAmount := 0, flowStartDate := none, flowEndDate := none,
    stockAmount := 0, stockStartDate := none,
    timeChargePrices := [((2025, 0), 500)],
    billingConfig := lumpBilling, assignments := [], isArchived := true }

/-- A hybrid project that toggles both Flow and Stock but has an empty
stock start date: the monthly revenue counts no stock (the guard
`p.useStock && p.stockStartDate` fails), while the flow/stock split
parses the empty date as `new Date()` and attributes the full
`stockAmount` to stock. -/
def sampleHybridBad : Project :=
  { id := 4, status := ProjectStatus.Ordered, useFlow := true,
    useStock := true, useTimeCharge := false, revenueMethod := none,
    flowAmount := 0, flowStartDate := none, flowEndDate := none,
    stockAmount := 50, stockStartDate := none, timeChargePrices := [],
    billingConfig := lumpBilling, assignments := [], isArchived := false }

/-- A pure stock project: 200 yen per month from Jan 2025. -/
def sampleStock : Project :=
  { id := 5, status := ProjectStatus.Ordered, useFlow := false,
    useStock := true, useTimeCharge := false, revenueMethod := none,
    flowAmount := 0, flowStartDate := none, flowEndDate := none,
    stockAmount := 200, stockStartDate := some (2025, 1, 1),
    timeChargePrices := [], billingConfig := lumpBilling,
    assignments := [], isArchived := false }

/-- A time-charge project with a priced-out team but no time-charge
prices: it earns no revenue but costs 250,000 yen of planned labor a
month. -/
def sampleLabor : Project :=
  { id := 9, status := ProjectStatus.Ordered, useFlow := false,
    useStock := false, useTimeCharge := true,
    revenueMethod := none,
    flowAmount := 0, flowStartDate := none, flowEndDate := none,
    stockAmount := 0, stockStartDate := none,
    timeChargePrices := [],
    billingConfig := lumpBilling,
    assignments := [⟨7, 50⟩],
    isArchived := false }

/-- Month lengths lie in `[28, 31]`. -/
theorem daysInMonth_bounds (y m : ℤ) :
    28 ≤ daysInMonth y m ∧ daysInMonth y m ≤ 31 := by
  unfold daysInMonth
  split
  · split <;> omega
  · split <;> omega

/-- Unfolding of `Valid` on a literal date. -/
theorem JDate.valid_def (y m d : ℤ) :
    (JDate.mk y m d).Valid ↔ 0 ≤ m ∧ m < 12 ∧ 1 ≤ d ∧ d ≤ daysInMonth y m :=
  Iff.rfl

/-- A day value already in range is left untouched (one unfolding step). -/
theorem normDayAux_base (fuel : ℕ) (y m d : ℤ) (h0 : fuel ≠ 0) (h1 : 1 ≤ d)
    (h2 : d ≤ daysInMonth y m) :
    normDayAux fuel y m d = ⟨y, m, d⟩ := by
  cases fuel with
  | zero => omega
  | succ k =>
    rw [normDayAux]
    rw [if_neg (by omega), if_neg (by omega)]

/-- Fuel sufficiency for day normalization: with `d.natAbs ≤ 28 * fuel`,
`fuel + 2` steps always reach a normalized date. -/
theorem normDayAux_valid : ∀ (fuel : ℕ) (y m d : ℤ),
    0 ≤ m → m < 12 → d.natAbs ≤ 28 * fuel →
    (normDayAux (fuel + 2) y m d).Valid := by
  intro fuel
  induction fuel with
  | zero =>
    intro y m d hm0 hm1 hd
    have hd0 : d = 0 := by omega
    subst hd0
    show (normDayAux (1 + 1) y m 0).Valid
    rw [normDayAux, if_pos (by omega)]
    set py : ℤ := if m = 0 then y - 1 else y with hpy
    set pm : ℤ := if m = 0 then 11 else m - 1 with hpm
    have hpmb : 0 ≤ pm ∧ pm < 12 := by rw [hpm]; split <;> omega
    have hpb := daysInMonth_bounds py pm
    rw [normDayAux_base 1 _ _ _ (by omega) (by omega) (by omega)]
    rw [JDate.valid_def]
    omega
  | succ k ih =>
    intro y m d hm0 hm1 hd
    show (normDayAux (k + 2 + 1) y m d).Valid
    rw [normDayAux]
    split
    · -- d < 1: roll into the previous month
      rename_i hdlt
      set py : ℤ := if m = 0 then y - 1 else y with hpy
      set pm : ℤ := if m = 0 then 11 else m - 1 with hpm
      have hpmb : 0 ≤ pm ∧ pm < 12 := by rw [hpm]; split <;> omega
      have hpb := daysInMonth_bounds py pm
      by_cases hup : 1 ≤ d + daysInMonth py pm
      · rw [normDayAux_base (k + 2) _ _ _ (by omega) hup (by omega)]
        rw [JDate.valid_def]
        omega
      · exact ih py pm _ (by omega) (by omega) (by omega)
    · split
      · -- daysInMonth y m < d: roll into the next month
        rename_i hdge hdgt
        set ny : ℤ := if m = 11 then y + 1 else y with hny
        set nm : ℤ := if m = 11 then 0 else m + 1 with hnm
        have hnmb : 0 ≤ nm ∧ nm < 12 := by rw [hnm]; split <;> omega
        have hb := daysInMonth_bounds y m
        have hnb := daysInMonth_bounds ny nm
        by_cases hdown : d - daysInMonth y m ≤ daysInMonth ny nm
        · rw [normDayAux_base (k + 2) _ _ _ (by omega) (by omega) hdown]
          rw [JDate.valid_def]
          omega
        · exact ih ny nm _ (by omega) (by omega) (by omega)
      · rename_i hdge hdle
        rw [JDate.valid_def]
        omega

/-- Every date built by the `Date` constructor is normalized. -/
theorem mkDate_valid (y m d : ℤ) : (mkDate y m d).Valid := by
  unfold mkDate
  have h12 : (0:ℤ) < 12 := by omega
  exact normDayAux_valid d.natAbs _ _ d
    (Int.emod_nonneg _ (by omega)) (by
      have := Int.emod_lt_of_pos (y * 12 + m) h12
      omega)
    (by omega)

/-- `new Date(y, m, d)` with a day already valid for the normalized month
just places that day in the normalized month. -/
theorem mkDate_eq_of_valid (y m d : ℤ) (h1 : 1 ≤ d)
    (h2 : d ≤ daysInMonth ((y * 12 + m) / 12) ((y * 12 + m) % 12)) :
    mkDate y m d = ⟨(y * 12 + m) / 12, (y * 12 + m) % 12, d⟩ := by
  unfold mkDate
  exact normDayAux_base (d.natAbs + 2) _ _ _ (by omega) h1 h2

/-- The first day of a month: `new Date(y, m, 1)`. -/
theorem mkDate_first (y m : ℤ) :
    mkDate y m 1 = ⟨(y * 12 + m) / 12, (y * 12 + m) % 12, 1⟩ := by
  have hb := daysInMonth_bounds ((y * 12 + m) / 12) ((y * 12 + m) % 12)
  exact mkDate_eq_of_valid y m 1 (by omega) (by omega)

/-- `new Date(y, m + 1, 0)` is the last day of month `(y, m)`
(after month normalization): the idiom the source uses for month ends. -/
theorem mkDate_day_zero (y m : ℤ) :
    mkDate y (m + 1) 0 =
      ⟨(y * 12 + m) / 12, (y * 12 + m) % 12,
        daysInMonth ((y * 12 + m) / 12) ((y * 12 + m) % 12)⟩ := by
  unfold mkDate
  show normDayAux (1 + 1) _ _ _ = _
  rw [normDayAux, if_pos (by omega)]
  have hk : y * 12 + (m + 1) = (y * 12 + m) + 1 := by ring
  rw [hk]
  set K : ℤ := y * 12 + m with hK
  have hmod : (0:ℤ) ≤ (K + 1) % 12 ∧ (K + 1) % 12 < 12 := by
    constructor
    · exact Int.emod_nonneg _ (by omega)
    · exact Int.emod_lt_of_pos _ (by omega)
  have hpy : (if (K + 1) % 12 = 0 then (K + 1) / 12 - 1 else (K + 1) / 12)
      = K / 12 := by
    have h1 : 12 * ((K + 1) / 12) + (K + 1) % 12 = K + 1 := Int.ediv_add_emod _ _
    have h2 : 12 * (K / 12) + K % 12 = K := Int.ediv_add_emod _ _
    have h3 : (0:ℤ) ≤ K % 12 := Int.emod_nonneg _ (by omega)
    have h4 : K % 12 < 12 := Int.emod_lt_of_pos _ (by omega)
    split <;> omega
  have hpm : (if (K + 1) % 12 = 0 then (11:ℤ) else (K + 1) % 12 - 1)
      = K % 12 := by
    have h1 : 12 * ((K + 1) / 12) + (K + 1) % 12 = K + 1 := Int.ediv_add_emod _ _
    have h2 : 12 * (K / 12) + K % 12 = K := Int.ediv_add_emod _ _
    have h3 : (0:ℤ) ≤ K % 12 := Int.emod_nonneg _ (by omega)
    have h4 : K % 12 < 12 := Int.emod_lt_of_pos _ (by omega)
    split <;> omega
  rw [hpy, hpm]
  have hb := daysInMonth_bounds (K / 12) (K % 12)
  show normDayAux 1 (K / 12) (K % 12) (0 + daysInMonth (K / 12) (K % 12)) = _
  rw [normDayAux_base 1 _ _ _ (by omega) (by omega) (by omega)]
  rw [JDate.mk.injEq]
  omega

/-- First days of months with equal month keys coincide. -/
theorem mkDate_first_eq_of_key (y1 m1 y2 m2 : ℤ) (h : y1 * 12 + m1 = y2 * 12 + m2) :
    mkDate y1 m1 1 = mkDate y2 m2 1 := by
  rw [mkDate_first, mkDate_first, h]

/-- The month key of a normalized first-of-month date recovers the
constructor arguments. -/
theorem mkDate_first_key (y m : ℤ) :
    (mkDate y m 1).year * 12 + (mkDate y m 1).month = y * 12 + m ∧
      0 ≤ (mkDate y m 1).month ∧ (mkDate y m 1).month < 12 ∧
      (mkDate y m 1).day = 1 := by
  rw [mkDate_first]
  dsimp only
  have h1 : 12 * ((y * 12 + m) / 12) + (y * 12 + m) % 12 = y * 12 + m :=
    Int.ediv_add_emod _ _
  have h2 : (0:ℤ) ≤ (y * 12 + m) % 12 := Int.emod_nonneg _ (by omega)
  have h3 : (y * 12 + m) % 12 < 12 := Int.emod_lt_of_pos _ (by omega)
  refine ⟨by omega, by omega, by omega, rfl⟩

/-! ## Shared lemmas -/

/-- Cast of a `ℕ` floor division. -/
theorem natCastDiv (a b : ℕ) : ((a / b : ℕ) : ℤ) = (a : ℤ) / (b : ℤ) :=
  Int.ofNat_div a b

/-- Cast of a `ℕ` remainder. -/
theorem natCastMod (a b : ℕ) : ((a % b : ℕ) : ℤ) = (a : ℤ) % (b : ℤ) :=
  Int.ofNat_mod a b

/-- Parsed date strings are normalized dates. -/
theorem parseYmd_valid (t : ℤ × ℤ × ℤ) : (parseYmd t).Valid :=
  mkDate_valid _ _ _

/-- For normalized months, equal month keys mean equal (year, month). -/
theorem monthKey_inj (a b : JDate) (ha : 0 ≤ a.month ∧ a.month < 12)
    (hb : 0 ≤ b.month ∧ b.month < 12) :
    a.year * 12 + a.month = b.year * 12 + b.month ↔
      a.year = b.year ∧ a.month = b.month := by
  constructor
  · intro h; constructor <;> omega
  · intro h; omega

/-- `setDate` onto a day within the shifted month's length (helper for
`getPaymentDate`): no rollover happens. -/
theorem normDayAux_one_step_up (fuel : ℕ) (y m d : ℤ) (hf : 2 ≤ fuel)
    (hm : 0 ≤ m ∧ m < 12) (h1 : daysInMonth y m < d)
    (h2 : d - daysInMonth y m ≤ 28) :
    normDayAux fuel y m d =
      ⟨(if m = 11 then y + 1 else y), (if m = 11 then 0 else m + 1),
        d - daysInMonth y m⟩ := by
  cases fuel with
  | zero => omega
  | succ k =>
    rw [normDayAux]
    have hb := daysInMonth_bounds y m
    rw [if_neg (by omega), if_pos h1]
    have hnb := daysInMonth_bounds (if m = 11 then y + 1 else y)
      (if m = 11 then 0 else m + 1)
    exact normDayAux_base k _ _ _ (by omega) (by omega) (by omega)

/-- `new Date(y, m, d)` with a day one month over the length: rolls into
the following month (no clamping). -/
theorem mkDate_rollover (y m d : ℤ) (hm : 0 ≤ m ∧ m < 12)
    (h1 : daysInMonth y m < d) (h2 : d - daysInMonth y m ≤ 28) :
    mkDate y m d =
      ⟨(if m = 11 then y + 1 else y), (if m = 11 then 0 else m + 1),
        d - daysInMonth y m⟩ := by
  unfold mkDate
  show normDayAux (d.natAbs + 2) ((y * 12 + m) / 12) ((y * 12 + m) % 12) d = _
  have hy : (y * 12 + m) / 12 = y := by omega
  have hm2 : (y * 12 + m) % 12 = m := by omega
  rw [hy, hm2]
  exact normDayAux_one_step_up _ _ _ _ (by omega) hm h1 h2

/-- `new Date(y, m, d)` at already-normalized month arguments with an
in-range day. -/
theorem mkDate_norm_args (y m d : ℤ) (hm : 0 ≤ m ∧ m < 12) (h1 : 1 ≤ d)
    (h2 : d ≤ daysInMonth y m) : mkDate y m d = ⟨y, m, d⟩ := by
  unfold mkDate
  show normDayAux (d.natAbs + 2) ((y * 12 + m) / 12) ((y * 12 + m) % 12) d = _
  rw [show (y * 12 + m) / 12 = y by omega, show (y * 12 + m) % 12 = m by omega]
  exact normDayAux_base _ _ _ _ (by omega) h1 h2

/-- `getPaymentDate` with `payDay = 99`: the last day of the shifted
month. -/
theorem getPaymentDate_99 (year month delay : ℤ) :
    getPaymentDate year month delay 99 =
      ⟨shiftedYear year month delay, shiftedMonth year month delay,
        daysInMonth (shiftedYear year month delay) (shiftedMonth year month delay)⟩ := by
  have hassoc : year * 12 + (month + delay) = year * 12 + month + delay := by ring
  have hkey : shiftedYear year month delay * 12 + shiftedMonth year month delay
      = year * 12 + month + delay := by
    unfold shiftedYear shiftedMonth; omega
  have hmb : 0 ≤ shiftedMonth year month delay ∧ shiftedMonth year month delay < 12 := by
    unfold shiftedMonth; omega
  unfold getPaymentDate
  rw [if_pos rfl, mkDate_first, hassoc]
  show mkDate (shiftedYear year month delay) (shiftedMonth year month delay + 1) 0 = _
  rw [mkDate_day_zero]
  rw [JDate.mk.injEq]
  refine ⟨by omega, by omega, ?_⟩
  rw [show (shiftedYear year month delay * 12 + shiftedMonth year month delay) / 12
        = shiftedYear year month delay by omega,
      show (shiftedYear year month delay * 12 + shiftedMonth year month delay) % 12
        = shiftedMonth year month delay by omega]

/-- `getPaymentDate` with a non-99 day: day placement in the shifted
month under JS rollover normalization. -/
theorem getPaymentDate_day (year month delay day : ℤ) (hday : day ≠ 99) :
    getPaymentDate year month delay day =
      mkDate (shiftedYear year month delay) (shiftedMonth year month delay) day := by
  have hassoc : year * 12 + (month + delay) = year * 12 + month + delay := by ring
  unfold getPaymentDate
  rw [if_neg hday, mkDate_first, hassoc]
  rfl

/-- `getPaymentDate` with an in-range day: lands exactly on that day of
the shifted month. -/
theorem getPaymentDate_inRange (year month delay day : ℤ) (hday : day ≠ 99)
    (h1 : 1 ≤ day)
    (h2 : day ≤ daysInMonth (shiftedYear year month delay) (shiftedMonth year month delay)) :
    getPaymentDate year month delay day =
      ⟨shiftedYear year month delay, shiftedMonth year month delay, day⟩ := by
  rw [getPaymentDate_day year month delay day hday]
  have hmb : 0 ≤ shiftedMonth year month delay ∧ shiftedMonth year month delay < 12 := by
    unfold shiftedMonth; omega
  exact mkDate_norm_args _ _ _ hmb h1 h2

/-- Every payment date is a normalized date. -/
theorem getPaymentDate_valid (year month delay day : ℤ) :
    (getPaymentDate year month delay day).Valid := by
  unfold getPaymentDate
  split
  · exact mkDate_valid _ _ _
  · exact mkDate_valid _ _ _

/-- **C8** (payment-date derivation): `getPaymentDate` shifts forward
`delay` calendar months (the shifted (year, month) is the unique
normalized pair whose month key is `year*12 + month + delay`); with
`payDay = 99` it returns the last calendar day of the shifted month;
otherwise it returns day-of-month `payDay` of the shifted month with no
clamping against the month's length — in particular the date is literally
`(shifted year, shifted month, payDay)` whenever `payDay` does not exceed
the month's length, and rolls over into the following month by the excess
days when it does. -/
theorem c8_payment_date_derivation (year month delay day : ℤ)
    (hdelay : 0 ≤ delay) :
    (shiftedYear year month delay * 12 + shiftedMonth year month delay
        = year * 12 + month + delay
      ∧ 0 ≤ shiftedMonth year month delay
      ∧ shiftedMonth year month delay < 12)
    ∧ (day = 99 →
        getPaymentDate year month delay day =
          ⟨shiftedYear year month delay, shiftedMonth year month delay,
            daysInMonth (shiftedYear year month delay) (shiftedMonth year month delay)⟩)
    ∧ (day ≠ 99 →
        getPaymentDate year month delay day =
          mkDate (shiftedYear year month delay) (shiftedMonth year month delay) day)
    ∧ (day ≠ 99 → 1 ≤ day →
        day ≤ daysInMonth (shiftedYear year month delay) (shiftedMonth year month delay) →
        getPaymentDate year month delay day =
          ⟨shiftedYear year month delay, shiftedMonth year month delay, day⟩)
    ∧ (day ≠ 99 → day ≤ 31 →
        daysInMonth (shiftedYear year month delay) (shiftedMonth year month delay) < day →
        getPaymentDate year month delay day =
          ⟨(if shiftedMonth year month delay = 11 then shiftedYear year month delay + 1
            else shiftedYear year month delay),
           (if shiftedMonth year month delay = 11 then 0
            else shiftedMonth year month delay + 1),
           day - daysInMonth (shiftedYear year month delay) (shiftedMonth year month delay)⟩) := by
  have hkey : shiftedYear year month delay * 12 + shiftedMonth year month delay
      = year * 12 + month + delay := by
    unfold shiftedYear shiftedMonth; omega
  have hmb : 0 ≤ shiftedMonth year month delay ∧ shiftedMonth year month delay < 12 := by
    unfold shiftedMonth; omega
  refine ⟨⟨hkey, hmb.1, hmb.2⟩, ?_, ?_, ?_, ?_⟩
  · intro h99
    subst h99
    exact getPaymentDate_99 year month delay
  · intro hdd
    exact getPaymentDate_day year month delay day hdd
  · intro hdd h1 h2
    exact getPaymentDate_inRange year month delay day hdd h1 h2
  · intro hdd h31 hover
    rw [getPaymentDate_day year month delay day hdd]
    have hb := daysInMonth_bounds (shiftedYear year month delay) (shiftedMonth year month delay)
    exact mkDate_rollover _ _ _ hmb hover (by omega)

/-- Concrete instance of C8: one month of delay from January 2025 with
`payDay = 31` (February is too short: the date rolls to March 3), and
with `payDay = 99` (last day of February). -/
theorem c8_payment_date_derivation_witness :
    (0 : ℤ) ≤ 1 ∧ getPaymentDate 2025 0 1 31 = ⟨2025, 2, 3⟩ ∧
      getPaymentDate 2025 0 1 99 = ⟨2025, 1, 28⟩ := by
  have h31 := c8_payment_date_derivation 2025 0 1 31 (by decide)
  have h99 := c8_payment_date_derivation 2025 0 1 99 (by decide)
  refine ⟨by decide, ?_, ?_⟩
  · rw [h31.2.2.2.2 (by decide) (by decide) (by decide)]
    decide
  · rw [h99.2.1 rfl]
    decide

/-- **C6** (cost gating): on a project that uses Flow and has both flow
dates, any month whose calendar-month interval does not overlap the
inclusive range [flowStart, flowEnd] (in date order: the month start is
after the flow end, or the month end is before the flow start) has
planned cost 0, whatever the assignments are. -/
theorem c6_cost_gating (p : Project) (employees : List Employee)
    (year month : ℤ) (sd ed : ℤ × ℤ × ℤ)
    (hf : p.useFlow = true) (hs : p.flowStartDate = some sd)
    (he : p.flowEndDate = some ed)
    (hno : ¬(dateKey (mkDate year month 1) ≤ dateKey (parseYmd ed) ∧
             dateKey (parseYmd sd) ≤ dateKey (mkDate year (month + 1) 0))) :
    getProjectMonthlyCost p employees year month = 0 := by
  unfold getProjectMonthlyCost
  rw [hf, hs, he]
  have hb : (dltb (mkDate year (month + 1) 0) (parseYmd sd) ||
      dltb (parseYmd ed) (mkDate year month 1)) = true := by
    rcases not_and_or.mp hno with h | h
    · have h2 : dateKey (parseYmd ed) < dateKey (mkDate year month 1) := by omega
      simp [dltb, h2]
    · have h2 : dateKey (mkDate year (month + 1) 0) < dateKey (parseYmd sd) := by omega
      simp [dltb, h2]
  simp only [hb]
  rfl

/-- Concrete instance of C6: the duration sample project (flow window
Jan–Jul 2025) with a 50%-utilized assignment of a present employee has
zero planned cost in October 2025. -/
theorem c6_cost_gating_witness :
    sampleDuration.useFlow = true ∧
      getProjectMonthlyCost sampleDuration [sampleEmployee] 2025 9 = 0 := by
  refine ⟨rfl, ?_⟩
  exact c6_cost_gating sampleDuration [sampleEmployee] 2025 9 (2025, 1, 1)
    (2025, 7, 31) rfl rfl rfl (by decide)

/-- Summing a mapped function over a filtered list drops only zero
contributions when the function vanishes off the filter. -/
theorem sum_map_filter_of_zero {α : Type} (l : List α) (keep : α → Bool)
    (f : α → ℚ) (h : ∀ a, keep a = false → f a = 0) :
    ((l.filter keep).map f).sum = (l.map f).sum := by
  induction l with
  | nil => rfl
  | cons hd tl ih =>
    by_cases hk : keep hd
    · simp only [List.filter_cons, hk, if_true, List.map_cons, List.sum_cons, ih]
    · have hk2 : keep hd = false := by
        cases hkk : keep hd
        · rfl
        · exact absurd hkk hk
      simp only [List.filter_cons, hk2, Bool.false_eq_true, if_false,
        List.map_cons, List.sum_cons, ih, h hd hk2]
      ring

/-- An employee id matching nothing in the collection makes the find
fail. -/
theorem find_eq_none_of_any_false (employees : List Employee) (eid : ℕ)
    (h : employees.any (fun e => e.id == eid) = false) :
    employees.find? (fun e => e.id == eid) = none := by
  rw [List.find?_eq_none]
  intro x hx
  rw [List.any_eq_false] at h
  exact fun hc => h x hx hc

/-- Dropping assignments whose employee is absent leaves the plan-cost
sum unchanged. -/
theorem assignmentsCost_filter (p : Project) (employees : List Employee)
    (year month : ℤ) :
    assignmentsCost
      { p with assignments :=
          (p.assignments.filter (fun a => employees.any (fun e => e.id == a.employeeId))) }
      employees year month = assignmentsCost p employees year month := by
  unfold assignmentsCost
  show ((p.assignments.filter _).map _).sum = _
  apply sum_map_filter_of_zero
  intro a ha
  rw [find_eq_none_of_any_false employees a.employeeId ha]

/-- Dropping work logs whose employee is absent leaves the actual-cost
sum unchanged. -/
theorem actualCostSum_filter (today : JDate) (p : Project)
    (employees : List Employee) (workLogs : List WorkLog) (year month : ℤ) :
    actualCostSum today p employees
      (workLogs.filter (fun l => employees.any (fun e => e.id == l.employeeId)))
      year month = actualCostSum today p employees workLogs year month := by
  unfold actualCostSum
  rw [List.filter_filter]
  rw [show (fun l : WorkLog =>
        (l.projectId == p.id &&
          (let d := parseLocalDate today l.weekStartDate
           d.year == year && d.month == month)) &&
          employees.any (fun e => e.id == l.employeeId))
      = (fun l : WorkLog =>
        employees.any (fun e => e.id == l.employeeId) &&
          (l.projectId == p.id &&
            (let d := parseLocalDate today l.weekStartDate
             d.year == year && d.month == month)))
      from funext (fun l => Bool.and_comm _ _)]
  rw [← List.filter_filter]
  apply sum_map_filter_of_zero
  intro l hl
  rw [find_eq_none_of_any_false employees l.employeeId hl]

/-- **C9** (silent skip of dangling employee references): an assignment
or work log whose employee id matches no employee contributes zero cost —
removing all such entries changes neither `getProjectMonthlyCost` nor
`getProjectActualCost`, and both stay total (no error path exists). -/
theorem c9_dangling_employee_refs (today : JDate) (p : Project)
    (employees : List Employee) (workLogs : List WorkLog) (year month : ℤ) :
    getProjectMonthlyCost
        { p with assignments :=
            (p.assignments.filter (fun a => employees.any (fun e => e.id == a.employeeId))) }
        employees year month
      = getProjectMonthlyCost p employees year month ∧
    getProjectActualCost today p employees
        (workLogs.filter (fun l => employees.any (fun e => e.id == l.employeeId)))
        year month
      = getProjectActualCost today p employees workLogs year month := by
  constructor
  · unfold getProjectMonthlyCost
    rw [assignmentsCost_filter]
  · unfold getProjectActualCost
    rw [actualCostSum_filter]

/-- **C1** (Flow/Duration exactness): on a Duration-method flow project
with both dates and a well-ordered month range, month `k` of the range
(`a` = start month key, `b` = end month key, `n = b - a + 1` months in
all) recognizes `flowAmount / n` yen — the last month additionally the
remainder `flowAmount % n` — and the total over the whole range is
exactly `flowAmount`. -/
theorem c1_flow_duration_exactness (p : Project) (sd ed : ℤ × ℤ × ℤ)
    (hf : p.useFlow = true)
    (hsd : p.flowStartDate = some sd) (hed : p.flowEndDate = some ed)
    (hm : p.revenueMethod ≠ some RevenueRecognitionMethod.Milestone)
    (a b : ℤ)
    (ha : a = (parseYmd sd).year * 12 + (parseYmd sd).month)
    (hb : b = (parseYmd ed).year * 12 + (parseYmd ed).month)
    (hab : a ≤ b) (n : ℕ) (hn : (n : ℤ) = b - a + 1) :
    (∀ k : ℕ, k < n →
      flowRevenueAt p (mkDate 0 (a + (k : ℤ)) 1).year (mkDate 0 (a + (k : ℤ)) 1).month
        = ((p.flowAmount / n : ℕ) : ℤ) +
            (if k = n - 1 then ((p.flowAmount % n : ℕ) : ℤ) else 0)) ∧
    (Finset.range n).sum (fun k =>
        flowRevenueAt p (mkDate 0 (a + (k : ℤ)) 1).year (mkDate 0 (a + (k : ℤ)) 1).month)
      = (p.flowAmount : ℤ) := by
  have hpt : ∀ k : ℕ, k < n →
      flowRevenueAt p (mkDate 0 (a + (k : ℤ)) 1).year (mkDate 0 (a + (k : ℤ)) 1).month
        = ((p.flowAmount / n : ℕ) : ℤ) +
            (if k = n - 1 then ((p.flowAmount % n : ℕ) : ℤ) else 0) := by
    intro k hk
    have hkey := mkDate_first_key 0 (a + (k : ℤ))
    have hcur : (mkDate 0 (a + (k : ℤ)) 1).year * 12 +
        (mkDate 0 (a + (k : ℤ)) 1).month = a + (k : ℤ) := by omega
    unfold flowRevenueAt
    rw [hf, hsd, hed]
    dsimp only
    rw [if_neg hm]
    rw [← ha, ← hb, hcur]
    rw [if_pos (by constructor <;> omega)]
    rw [← hn]
    rw [if_pos (by omega)]
    rw [natCastDiv, natCastMod]
    by_cases hlast : a + (k : ℤ) = b
    · rw [if_pos hlast, if_pos (by omega)]
    · rw [if_neg hlast, if_neg (by omega), add_zero]
  refine ⟨hpt, ?_⟩
  rw [Finset.sum_congr rfl (fun k hk => hpt k (Finset.mem_range.mp hk))]
  rw [Finset.sum_add_distrib, Finset.sum_const, Finset.card_range]
  rw [Finset.sum_ite_eq' (Finset.range n) (n - 1)
    (fun _ => ((p.flowAmount % n : ℕ) : ℤ))]
  rw [if_pos (Finset.mem_range.mpr (by omega))]
  rw [nsmul_eq_mul]
  have hdm : n * (p.flowAmount / n) + p.flowAmount % n = p.flowAmount :=
    Nat.div_add_mod _ _
  exact_mod_cast hdm

/-- Concrete instance of C1: 1,000,001 yen over the 7 months Jan–Jul 2025
(month keys 24300–24306) sums back to exactly 1,000,001. -/
theorem c1_flow_duration_exactness_witness :
    sampleDuration.useFlow = true ∧
      sampleDuration.revenueMethod ≠ some RevenueRecognitionMethod.Milestone ∧
      (Finset.range 7).sum (fun k =>
          flowRevenueAt sampleDuration
            (mkDate 0 (24300 + (k : ℤ)) 1).year
            (mkDate 0 (24300 + (k : ℤ)) 1).month)
        = (1000001 : ℤ) := by
  have h := c1_flow_duration_exactness sampleDuration (2025, 1, 1) (2025, 7, 31)
    rfl rfl rfl (by decide) 24300 24306 (by decide) (by decide) (by decide) 7
    (by decide)
  exact ⟨rfl, by decide, h.2.trans (by norm_num [sampleDuration])⟩

/-- **C2** (Flow/Milestone split exactness): on a Milestone-method flow
project with both dates, with split billing on, a ratio in [0,100] and
distinct start/end months, the start month recognizes
`⌊flowAmount·ratio/100⌋`, the end month the exact complement, and the two
sum to `flowAmount`; with split billing off, all flow revenue posts in
the end month only. -/
theorem c2_flow_milestone_split (p : Project) (sd ed : ℤ × ℤ × ℤ)
    (hf : p.useFlow = true)
    (hsd : p.flowStartDate = some sd) (hed : p.flowEndDate = some ed)
    (hm : p.revenueMethod = some RevenueRecognitionMethod.Milestone) :
    (p.billingConfig.flowSplit = true →
      p.billingConfig.flowStartPercent ≤ 100 →
      (parseYmd sd).year * 12 + (parseYmd sd).month ≠
        (parseYmd ed).year * 12 + (parseYmd ed).month →
      flowRevenueAt p (parseYmd sd).year (parseYmd sd).month
          = Int.floor ((p.flowAmount : ℚ) *
              ((p.billingConfig.flowStartPercent : ℚ) / 100)) ∧
        flowRevenueAt p (parseYmd ed).year (parseYmd ed).month
          = (p.flowAmount : ℤ) - Int.floor ((p.flowAmount : ℚ) *
              ((p.billingConfig.flowStartPercent : ℚ) / 100)) ∧
        flowRevenueAt p (parseYmd sd).year (parseYmd sd).month +
            flowRevenueAt p (parseYmd ed).year (parseYmd ed).month
          = (p.flowAmount : ℤ)) ∧
    (p.billingConfig.flowSplit = false →
      ∀ year month : ℤ,
        flowRevenueAt p year month =
          if (parseYmd ed).year = year ∧ (parseYmd ed).month = month then
            (p.flowAmount : ℤ)
          else 0) := by
  have hsv := parseYmd_valid sd
  have hev := parseYmd_valid ed
  constructor
  · intro hsplit hpct hne
    have hsne : ¬((parseYmd ed).year = (parseYmd sd).year ∧
        (parseYmd ed).month = (parseYmd sd).month) := by
      intro hcon
      exact hne (by omega)
    have hene : ¬((parseYmd sd).year = (parseYmd ed).year ∧
        (parseYmd sd).month = (parseYmd ed).month) := by
      intro hcon
      exact hne (by omega)
    have hstart : flowRevenueAt p (parseYmd sd).year (parseYmd sd).month
        = Int.floor ((p.flowAmount : ℚ) *
            ((p.billingConfig.flowStartPercent : ℚ) / 100)) := by
      unfold flowRevenueAt
      rw [hf, hsd, hed]
      dsimp only
      rw [if_pos hm]
      rw [if_pos ⟨rfl, rfl⟩, if_pos hsplit, if_neg hsne]
      ring
    have hend : flowRevenueAt p (parseYmd ed).year (parseYmd ed).month
        = (p.flowAmount : ℤ) - Int.floor ((p.flowAmount : ℚ) *
            ((p.billingConfig.flowStartPercent : ℚ) / 100)) := by
      unfold flowRevenueAt
      rw [hf, hsd, hed]
      dsimp only
      rw [if_pos hm]
      rw [if_neg hene, if_pos ⟨rfl, rfl⟩, if_pos hsplit]
      ring
    exact ⟨hstart, hend, by rw [hstart, hend]; ring⟩
  · intro hsplit year month
    unfold flowRevenueAt
    rw [hf, hsd, hed]
    dsimp only
    rw [if_pos hm, hsplit]
    simp only [Bool.false_eq_true, if_false, ite_self, zero_add]

/-- Concrete instance of C2: the 6,000,000-yen 50/50 milestone sample
posts 3,000,000 in the start month (Jan 2025) and 3,000,000 in the end
month (Jun 2025), totalling exactly 6,000,000. -/
theorem c2_flow_milestone_split_witness :
    sampleMilestone.billingConfig.flowSplit = true ∧
      sampleMilestone.billingConfig.flowStartPercent ≤ 100 ∧
      flowRevenueAt sampleMilestone 2025 0 +
          flowRevenueAt sampleMilestone 2025 5 = (6000000 : ℤ) := by
  have h := (c2_flow_milestone_split sampleMilestone (2025, 1, 1) (2025, 6, 30)
    rfl rfl rfl rfl).1 rfl (by decide) (by decide)
  refine ⟨rfl, by decide, ?_⟩
  have h3 := h.2.2
  norm_num [show parseYmd (2025, 1, 1) = ⟨2025, 0, 1⟩ from by decide,
    show parseYmd (2025, 6, 30) = ⟨2025, 5, 30⟩ from by decide] at h3
  exact h3

/-- Length of the projection loop output. -/
theorem generateProjectionsAux_length (today : JDate) (projects : List Project)
    (employees : List Employee) (workLogs : List WorkLog) (termStart : JDate)
    (settings : AppSettings) :
    ∀ (n i : ℕ) (cash : ℤ),
      (generateProjectionsAux today projects employees workLogs termStart settings
        i n cash).length = n := by
  intro n
  induction n with
  | zero => intro i cash; rfl
  | succ m ih =>
    intro i cash
    rw [generateProjectionsAux]
    rw [List.length_cons, ih]

/-- Shifting a sum over `List.range (k + 1)`. -/
theorem range_map_sum_shift (f : ℕ → ℤ) (k : ℕ) :
    ((List.range (k + 1)).map f).sum
      = f 0 + ((List.range k).map (fun j => f (j + 1))).sum := by
  rw [List.range_succ_eq_map, List.map_cons, List.sum_cons, List.map_map]
  rfl

/-- Closed form of the `k`-th record of the projection loop: the month
record of iteration `i + k`, whose balance is the incoming balance plus
the cumulated monthly changes up to and including that month. -/
theorem generateProjectionsAux_get (today : JDate) (projects : List Project)
    (employees : List Employee) (workLogs : List WorkLog) (termStart : JDate)
    (settings : AppSettings) :
    ∀ (n i : ℕ) (cash : ℤ) (k : ℕ), k < n →
      (generateProjectionsAux today projects employees workLogs termStart settings
          i n cash)[k]?
        = some (monthRecordAt today projects employees workLogs termStart settings
            (i + k)
            (cash + ((List.range (k + 1)).map (fun j =>
              monthChange today projects employees workLogs termStart settings
                (i + j))).sum)) := by
  intro n
  induction n with
  | zero => intro i cash k hk; omega
  | succ m ih =>
    intro i cash k hk
    rw [generateProjectionsAux]
    cases k with
    | zero =>
      rw [List.getElem?_cons_zero]
      rw [range_map_sum_shift]
      simp only [List.range_zero, List.map_nil, List.sum_nil, add_zero,
        Nat.add_zero]
    | succ k2 =>
      rw [List.getElem?_cons_succ]
      rw [ih (i + 1) _ k2 (by omega)]
      congr 1
      have hidx : i + 1 + k2 = i + (k2 + 1) := by omega
      rw [hidx]
      congr 1
      rw [range_map_sum_shift
        (fun j => monthChange today projects employees workLogs termStart settings
          (i + j)) (k2 + 1)]
      rw [Nat.add_zero, add_assoc]
      congr 2
      congr 1
      apply List.map_congr_left
      intro j hj
      congr 1
      omega

/-- The previous calendar month of term month `i` (for `i ≥ 1`) is term
month `i - 1`. -/
theorem termMonth_prev (termStart : JDate) (i : ℕ) (hi : 1 ≤ i) :
    mkDate (termMonthDate termStart i).year
        ((termMonthDate termStart i).month - 1) 1
      = termMonthDate termStart (i - 1) := by
  have h1 := mkDate_first_key termStart.year (termStart.month + (i : ℤ))
  unfold termMonthDate at h1 ⊢
  apply mkDate_first_eq_of_key
  omega

/-- **C5** (balance continuity): every record of the 12-month output has
`totalCashIn = cashIn + financialIn`,
`totalCashOut = cost + sga + taxRepayment + investment` (paid labor, SG&A,
tax/loan repayment, investment), and a running balance equal to
`initialCashBalance` plus the cumulated `totalCashIn - totalCashOut` of
months 0..i. -/
theorem c5_balance_continuity (today : JDate) (projects : List Project)
    (employees : List Employee) (workLogs : List WorkLog) (termStart : JDate)
    (settings : AppSettings) (i : ℕ) (r : MonthRecord)
    (hr : (generateProjections today projects employees workLogs termStart
        settings)[i]? = some r) :
    r.totalCashIn = r.cashIn + r.financialIn ∧
    r.totalCashOut = r.cost + r.sga + r.taxRepayment + r.investment ∧
    r.cashBalance = settings.initialCashBalance +
      ((List.range (i + 1)).map (fun j =>
        (((generateProjections today projects employees workLogs termStart
            settings)[j]?).map
          (fun s => s.totalCashIn - s.totalCashOut)).getD 0)).sum := by
  have hlen := generateProjectionsAux_length today projects employees workLogs
    termStart settings 12 0 settings.initialCashBalance
  have hi : i < 12 := by
    by_contra hge
    rw [generateProjections, List.getElem?_eq_none (by omega)] at hr
    exact Option.noConfusion hr
  have hget := generateProjectionsAux_get today projects employees workLogs
    termStart settings 12 0 settings.initialCashBalance i hi
  rw [generateProjections] at hr
  rw [hget] at hr
  have hrv := (Option.some.injEq _ _).mp hr
  subst hrv
  refine ⟨rfl, rfl, ?_⟩
  show settings.initialCashBalance + _ = _
  congr 1
  congr 1
  apply List.map_congr_left
  intro j hj
  have hj12 : j < 12 := by
    have := List.mem_range.mp hj
    omega
  rw [generateProjections]
  rw [generateProjectionsAux_get today projects employees workLogs termStart
    settings 12 0 settings.initialCashBalance j hj12]
  simp only [Nat.zero_add]
  rfl

/-- The in/out difference of a month record is the month's change. -/
theorem monthRecordAt_change_eq (today : JDate) (projects : List Project)
    (employees : List Employee) (workLogs : List WorkLog) (termStart : JDate)
    (settings : AppSettings) (i : ℕ) (bal : ℤ) :
    (monthRecordAt today projects employees workLogs termStart settings i
        bal).totalCashIn -
      (monthRecordAt today projects employees workLogs termStart settings i
        bal).totalCashOut
      = monthChange today projects employees workLogs termStart settings i :=
  rfl

/-- With no projects and no ledger items every month's net change is 0. -/
theorem monthChange_empty (today termStart : JDate) (i : ℕ) :
    monthChange today [] [] [] termStart sampleSettings i = 0 := by
  unfold monthChange monthTotalCashIn monthTotalCashOut monthCashIn monthCashInQ
    monthFinancialIn monthPaidCost monthSga monthTaxRepayment monthInvestment
  simp [sampleSettings]

/-- Concrete instance of C5: with no projects and no ledger items, record
1 of the projections keeps the seed balance. -/
theorem c5_balance_continuity_witness :
    ((generateProjections ⟨2099, 0, 1⟩ [] [] [] (mkDate 2024 11 1)
        sampleSettings)[1]?).isSome = true ∧
      ((generateProjections ⟨2099, 0, 1⟩ [] [] [] (mkDate 2024 11 1)
          sampleSettings)[1]?).map (fun r => r.cashBalance) = some 1000 := by
  constructor
  · decide
  · cases hr : (generateProjections ⟨2099, 0, 1⟩ [] [] [] (mkDate 2024 11 1)
        sampleSettings)[1]? with
    | none => exact absurd hr (by decide)
    | some r =>
      have h := c5_balance_continuity ⟨2099, 0, 1⟩ [] [] [] (mkDate 2024 11 1)
        sampleSettings 1 r hr
      rw [Option.map_some']
      rw [h.2.2]
      rw [show List.range 2 = [0, 1] from rfl]
      simp only [List.map_cons, List.map_nil, List.sum_cons, List.sum_nil]
      rw [generateProjections]
      rw [generateProjectionsAux_get ⟨2099, 0, 1⟩ [] [] [] (mkDate 2024 11 1)
        sampleSettings 12 0 sampleSettings.initialCashBalance 0 (by omega)]
      rw [generateProjectionsAux_get ⟨2099, 0, 1⟩ [] [] [] (mkDate 2024 11 1)
        sampleSettings 12 0 sampleSettings.initialCashBalance 1 (by omega)]
      simp only [Option.map_some', Option.getD_some, monthRecordAt_change_eq,
        monthChange_empty]
      rfl

/-- **C4** (cash arrears): for every month `i ≥ 1` of the output, the
labor cost in that month's outflow (the record's `cost` field) is exactly
the labor cost computed for term month `i - 1`: the actual cost when
month `i - 1` starts strictly before the first day of the current
calendar month, the planned cost otherwise, summed over all projects. -/
theorem c4_cash_arrears (today : JDate) (projects : List Project)
    (employees : List Employee) (workLogs : List WorkLog) (termStart : JDate)
    (settings : AppSettings) (i : ℕ) (hi : 1 ≤ i) (r : MonthRecord)
    (hr : (generateProjections today projects employees workLogs termStart
        settings)[i]? = some r) :
    r.cost = (projects.map (fun p =>
      if dltb (termMonthDate termStart (i - 1)) (currentMonthStart today) then
        getProjectActualCost today p employees workLogs
          (termMonthDate termStart (i - 1)).year
          (termMonthDate termStart (i - 1)).month
      else
        getProjectMonthlyCost p employees
          (termMonthDate termStart (i - 1)).year
          (termMonthDate termStart (i - 1)).month)).sum := by
  have hi12 : i < 12 := by
    by_contra hge
    rw [generateProjections, List.getElem?_eq_none (by
      rw [generateProjectionsAux_length]; omega)] at hr
    exact Option.noConfusion hr
  rw [generateProjections,
    generateProjectionsAux_get today projects employees workLogs termStart
      settings 12 0 settings.initialCashBalance i hi12] at hr
  have hrv := (Option.some.injEq _ _).mp hr
  subst hrv
  show monthPaidCost today projects employees workLogs
      (termMonthDate termStart (0 + i)) = _
  rw [Nat.zero_add]
  unfold monthPaidCost
  rw [termMonth_prev termStart i hi]

/-- Concrete instance of C4: with no projects the paid labor of month 1
is the empty sum. -/
theorem c4_cash_arrears_witness :
    1 ≤ 1 ∧
      ((generateProjections ⟨2099, 0, 1⟩ [] [] [] (mkDate 2024 11 1)
          sampleSettings)[1]?).map (fun r => r.cost) = some 0 := by
  constructor
  · omega
  · cases hr : (generateProjections ⟨2099, 0, 1⟩ [] [] [] (mkDate 2024 11 1)
        sampleSettings)[1]? with
    | none => exact absurd hr (by decide)
    | some r =>
      have h := c4_cash_arrears ⟨2099, 0, 1⟩ [] [] [] (mkDate 2024 11 1)
        sampleSettings 1 (by omega) r hr
      rw [Option.map_some', h]
      rfl

/-- The flow contribution is nonnegative whenever the split ratio is a
percentage (≤ 100). -/
theorem flowRevenueAt_nonneg (p : Project) (year month : ℤ)
    (hpct : p.billingConfig.flowStartPercent ≤ 100) :
    0 ≤ flowRevenueAt p year month := by
  unfold flowRevenueAt
  cases hu : p.useFlow with
  | false => cases p.flowStartDate <;> cases p.flowEndDate <;> exact le_refl 0
  | true =>
    cases hs : p.flowStartDate with
    | none => cases p.flowEndDate <;> exact le_refl 0
    | some sd =>
      cases he : p.flowEndDate with
      | none => exact le_refl 0
      | some ed =>
        dsimp only
        have hfl0 : (0:ℤ) ≤ Int.floor ((p.flowAmount : ℚ) *
            ((p.billingConfig.flowStartPercent : ℚ) / 100)) := by
          rw [Int.le_floor]
          push_cast
          positivity
        have hfl1 : Int.floor ((p.flowAmount : ℚ) *
            ((p.billingConfig.flowStartPercent : ℚ) / 100)) ≤ (p.flowAmount : ℤ) := by
          have hle : (p.flowAmount : ℚ) *
              ((p.billingConfig.flowStartPercent : ℚ) / 100) ≤ (p.flowAmount : ℚ) := by
            have h1 : ((p.billingConfig.flowStartPercent : ℚ) / 100) ≤ 1 := by
              rw [div_le_one (by norm_num)]
              exact_mod_cast hpct
            have h0 : (0:ℚ) ≤ (p.flowAmount : ℚ) := by positivity
            calc (p.flowAmount : ℚ) * ((p.billingConfig.flowStartPercent : ℚ) / 100)
                ≤ (p.flowAmount : ℚ) * 1 := by
                  apply mul_le_mul_of_nonneg_left h1 h0
              _ = (p.flowAmount : ℚ) := mul_one _
          calc Int.floor ((p.flowAmount : ℚ) *
                ((p.billingConfig.flowStartPercent : ℚ) / 100))
              ≤ Int.floor ((p.flowAmount : ℚ)) := Int.floor_le_floor hle
            _ = (p.flowAmount : ℤ) := Int.floor_natCast _
        split
        · -- Milestone
          apply add_nonneg
          · split
            · split
              · exact hfl0
              · exact le_refl 0
            · exact le_refl 0
          · split
            · split
              · omega
              · positivity
            · exact le_refl 0
        · -- Duration
          split
          · split
            · rename_i hrange hpos
              have hbase : (0:ℤ) ≤ (p.flowAmount : ℤ) /
                  ((parseYmd ed).year * 12 + (parseYmd ed).month -
                    ((parseYmd sd).year * 12 + (parseYmd sd).month) + 1) :=
                Int.ediv_nonneg (by positivity) (le_of_lt hpos)
              have hrem : (0:ℤ) ≤ (p.flowAmount : ℤ) %
                  ((parseYmd ed).year * 12 + (parseYmd ed).month -
                    ((parseYmd sd).year * 12 + (parseYmd sd).month) + 1) :=
                Int.emod_nonneg _ (by omega)
              split
              · omega
              · exact hbase
            · exact le_refl 0
          · exact le_refl 0

/-- The stock contribution is nonnegative. -/
theorem stockRevenueAt_nonneg (p : Project) (year month : ℤ) :
    0 ≤ stockRevenueAt p year month := by
  unfold stockRevenueAt
  cases p.useStock <;> cases p.stockStartDate <;> dsimp only
  · exact le_refl 0
  · exact le_refl 0
  · exact le_refl 0
  · split
    · positivity
    · exact le_refl 0

/-- The time-charge contribution is nonnegative. -/
theorem timeChargeAt_nonneg (p : Project) (year month : ℤ) :
    0 ≤ timeChargeAt p year month := by
  unfold timeChargeAt
  split
  · cases lookupYM p.timeChargePrices year month <;> dsimp only <;> positivity
  · exact le_refl 0

/-- Recognized monthly revenue is nonnegative whenever the split ratio is
a percentage. -/
theorem getMonthlyRevenue_nonneg (p : Project) (d : JDate)
    (hpct : p.billingConfig.flowStartPercent ≤ 100) :
    0 ≤ getMonthlyRevenue p d := by
  unfold getMonthlyRevenue
  have h1 := flowRevenueAt_nonneg p d.year d.month hpct
  have h2 := stockRevenueAt_nonneg p d.year d.month
  have h3 := timeChargeAt_nonneg p d.year d.month
  omega

/-- Total revenue decomposes into confirmed + potential + the revenue of
Lost projects (the only other status). -/
theorem monthRevenue_decomp (projects : List Project) (d : JDate) :
    monthRevenue projects d = monthConfirmedRevenue projects d +
      monthPotentialRevenue projects d +
      (projects.map (fun p =>
        if p.status = ProjectStatus.Lost then getMonthlyRevenue p d else 0)).sum := by
  induction projects with
  | nil => rfl
  | cons hd tl ih =>
    unfold monthRevenue monthConfirmedRevenue monthPotentialRevenue at ih ⊢
    simp only [List.map_cons, List.sum_cons]
    cases hst : hd.status <;> simp [hst] <;> omega

/-- The Lost-projects revenue sum is nonnegative, and positive exactly
when some Lost project has nonzero revenue. -/
theorem lost_sum_pos_iff (projects : List Project) (d : JDate)
    (hpct : ∀ p ∈ projects, p.billingConfig.flowStartPercent ≤ 100) :
    0 ≤ (projects.map (fun p =>
        if p.status = ProjectStatus.Lost then getMonthlyRevenue p d else 0)).sum ∧
    (0 < (projects.map (fun p =>
        if p.status = ProjectStatus.Lost then getMonthlyRevenue p d else 0)).sum ↔
      ∃ p ∈ projects, p.status = ProjectStatus.Lost ∧ 0 < getMonthlyRevenue p d) := by
  induction projects with
  | nil => simp
  | cons hd tl ih =>
    have hhd := hpct hd (List.mem_cons_self hd tl)
    have htl := ih (fun p hp => hpct p (List.mem_cons_of_mem hd hp))
    have hhd0 : 0 ≤ (if hd.status = ProjectStatus.Lost then
        getMonthlyRevenue hd d else 0) := by
      split
      · exact getMonthlyRevenue_nonneg hd d hhd
      · exact le_refl 0
    simp only [List.map_cons, List.sum_cons]
    constructor
    · omega
    · constructor
      · intro hpos
        by_cases hcase : 0 < (if hd.status = ProjectStatus.Lost then
            getMonthlyRevenue hd d else 0)
        · refine ⟨hd, List.mem_cons_self hd tl, ?_⟩
          by_cases hl : hd.status = ProjectStatus.Lost
          · rw [if_pos hl] at hcase
            exact ⟨hl, hcase⟩
          · rw [if_neg hl] at hcase
            omega
        · have := htl.2.mp (by omega)
          obtain ⟨p, hp, hlp⟩ := this
          exact ⟨p, List.mem_cons_of_mem hd hp, hlp⟩
      · rintro ⟨p, hp, hlost, hrev⟩
        rcases List.mem_cons.mp hp with hph | hpt
        · subst hph
          rw [if_pos hlost]
          omega
        · have := htl.2.mpr ⟨p, hpt, hlost, hrev⟩
          omega

/-- Revenue totals ignore `status` and `isArchived`. -/
theorem monthRevenue_status_blind (projects : List Project) (d : JDate) :
    monthRevenue (projects.map (fun p =>
        { p with status := ProjectStatus.Lost, isArchived := true })) d
      = monthRevenue projects d := by
  induction projects with
  | nil => rfl
  | cons hd tl ih =>
    unfold monthRevenue at ih ⊢
    simp only [List.map_cons, List.sum_cons]
    rw [show getMonthlyRevenue
        { hd with status := ProjectStatus.Lost, isArchived := true } d
      = getMonthlyRevenue hd d from rfl]
    omega

/-- Cash inflow ignores `status` and `isArchived`. -/
theorem monthCashIn_status_blind (projects : List Project) (year month : ℤ) :
    monthCashIn (projects.map (fun p =>
        { p with status := ProjectStatus.Lost, isArchived := true })) year month
      = monthCashIn projects year month := by
  unfold monthCashIn
  congr 1
  unfold monthCashInQ
  congr 1
  induction projects with
  | nil => rfl
  | cons hd tl ih =>
    simp only [List.map_cons, List.sum_cons]
    rw [ih]
    rfl

/-- **C10** (no status or archive filter): each month's `revenue` is the
sum over all projects — Lost or archived ones included — and decomposes
as `confirmedRevenue + potentialRevenue + (revenue of Lost projects)`;
hence `confirmedRevenue + potentialRevenue ≤ revenue`, strictly exactly
when some Lost project has nonzero recognized revenue; and replacing
every project's status by Lost and setting `isArchived` changes neither
the month's total revenue nor its cash inflow.  (`flowStartPercent ≤ 100`
is the data-model invariant on the split ratio.) -/
theorem c10_lost_projects (today : JDate) (projects : List Project)
    (employees : List Employee) (workLogs : List WorkLog) (termStart : JDate)
    (settings : AppSettings) (i : ℕ) (r : MonthRecord)
    (hr : (generateProjections today projects employees workLogs termStart
        settings)[i]? = some r)
    (hpct : ∀ p ∈ projects, p.billingConfig.flowStartPercent ≤ 100) :
    r.revenue = r.confirmedRevenue + r.potentialRevenue +
      (projects.map (fun p =>
        if p.status = ProjectStatus.Lost then getMonthlyRevenue p r.date
        else 0)).sum ∧
    r.confirmedRevenue + r.potentialRevenue ≤ r.revenue ∧
    (r.confirmedRevenue + r.potentialRevenue < r.revenue ↔
      ∃ p ∈ projects, p.status = ProjectStatus.Lost ∧
        0 < getMonthlyRevenue p r.date) ∧
    monthRevenue (projects.map (fun p =>
        { p with status := ProjectStatus.Lost, isArchived := true })) r.date
      = r.revenue ∧
    monthCashIn (projects.map (fun p =>
        { p with status := ProjectStatus.Lost, isArchived := true }))
        r.date.year r.date.month
      = r.cashIn := by
  have hi : i < 12 := by
    by_contra hge
    rw [generateProjections, List.getElem?_eq_none (by
      rw [generateProjectionsAux_length]; omega)] at hr
    exact Option.noConfusion hr
  rw [generateProjections,
    generateProjectionsAux_get today projects employees workLogs termStart
      settings 12 0 settings.initialCashBalance i hi] at hr
  have hrv := (Option.some.injEq _ _).mp hr
  subst hrv
  have hdec := monthRevenue_decomp projects (termMonthDate termStart (0 + i))
  have hpos := lost_sum_pos_iff projects (termMonthDate termStart (0 + i)) hpct
  have er : (monthRecordAt today projects employees workLogs termStart settings
      (0 + i) (settings.initialCashBalance + ((List.range (i + 1)).map (fun j =>
        monthChange today projects employees workLogs termStart settings
          (0 + j))).sum)).revenue
      = monthRevenue projects (termMonthDate termStart (0 + i)) := rfl
  have ec : (monthRecordAt today projects employees workLogs termStart settings
      (0 + i) (settings.initialCashBalance + ((List.range (i + 1)).map (fun j =>
        monthChange today projects employees workLogs termStart settings
          (0 + j))).sum)).confirmedRevenue
      = monthConfirmedRevenue projects (termMonthDate termStart (0 + i)) := rfl
  have ep : (monthRecordAt today projects employees workLogs termStart settings
      (0 + i) (settings.initialCashBalance + ((List.range (i + 1)).map (fun j =>
        monthChange today projects employees workLogs termStart settings
          (0 + j))).sum)).potentialRevenue
      = monthPotentialRevenue projects (termMonthDate termStart (0 + i)) := rfl
  have edt : (monthRecordAt today projects employees workLogs termStart settings
      (0 + i) (settings.initialCashBalance + ((List.range (i + 1)).map (fun j =>
        monthChange today projects employees workLogs termStart settings
          (0 + j))).sum)).date
      = termMonthDate termStart (0 + i) := rfl
  have eci : (monthRecordAt today projects employees workLogs termStart settings
      (0 + i) (settings.initialCashBalance + ((List.range (i + 1)).map (fun j =>
        monthChange today projects employees workLogs termStart settings
          (0 + j))).sum)).cashIn
      = monthCashIn projects (termMonthDate termStart (0 + i)).year
          (termMonthDate termStart (0 + i)).month := rfl
  rw [er, ec, ep, edt, eci]
  refine ⟨hdec, by omega, ?_, ?_, ?_⟩
  · rw [hdec]
    constructor
    · intro h2
      exact hpos.2.mp (by omega)
    · intro h2
      have := hpos.2.mpr h2
      omega
  · exact monthRevenue_status_blind projects (termMonthDate termStart (0 + i))
  · exact monthCashIn_status_blind projects (termMonthDate termStart (0 + i)).year
      (termMonthDate termStart (0 + i)).month

/-- Concrete instance of C10: a Lost archived project with 500 yen of
January revenue makes `revenue` strictly exceed
`confirmedRevenue + potentialRevenue` in month 1 of term 2025. -/
theorem c10_lost_projects_witness :
    (∀ p ∈ [sampleLost], p.billingConfig.flowStartPercent ≤ 100) ∧
      ((generateProjections ⟨2099, 0, 1⟩ [sampleLost] [] [] (mkDate 2024 11 1)
          sampleSettings)[1]?).map
        (fun r => decide (r.confirmedRevenue + r.potentialRevenue < r.revenue))
        = some true := by
  refine ⟨by decide, ?_⟩
  cases hr : (generateProjections ⟨2099, 0, 1⟩ [sampleLost] [] [] (mkDate 2024 11 1)
      sampleSettings)[1]? with
  | none => exact absurd hr (by decide)
  | some r =>
    have h := c10_lost_projects ⟨2099, 0, 1⟩ [sampleLost] [] [] (mkDate 2024 11 1)
      sampleSettings 1 r hr (by decide)
    rw [Option.map_some']
    rw [generateProjections,
      generateProjectionsAux_get ⟨2099, 0, 1⟩ [sampleLost] [] [] (mkDate 2024 11 1)
        sampleSettings 12 0 sampleSettings.initialCashBalance 1 (by omega)] at hr
    have hrv := (Option.some.injEq _ _).mp hr
    subst hrv
    have hlt := h.2.2.1.mpr ⟨sampleLost, by simp, rfl, by decide⟩
    exact congrArg some (decide_eq_true hlt)

/-- **C7, counterexample**: in month 0 of term 2025 (December 2024), the
record for `sampleHybridBad` alone (with `today` = 2000-01-01) has
`revenue = 0` but `stockRevenue = 50` and `flowRevenue = -50`: the stock
share exceeds the month's recognized revenue and the flow remainder is
negative, contradicting the claim. -/
theorem c7_flow_stock_split_counterexample :
    ((generateProjections ⟨2000, 0, 1⟩ [sampleHybridBad] [] [] (mkDate 2024 11 1)
        sampleSettings)[0]?).map
      (fun r => (r.revenue, r.stockRevenue, r.flowRevenue))
      = some (0, 50, -50) := by
  decide

/-- The per-project stock share stays within recognized revenue, given a
present stock start date on hybrid projects and a percentage ratio. -/
theorem stockPartOf_le (today : JDate) (p : Project) (d : JDate)
    (hstock : p.useStock = true → p.useFlow = true →
      p.stockStartDate.isSome = true)
    (hpct : p.billingConfig.flowStartPercent ≤ 100) :
    stockPartOf today p d ≤ getMonthlyRevenue p d := by
  have hrev0 : 0 ≤ getMonthlyRevenue p d := getMonthlyRevenue_nonneg p d hpct
  have hflow0 := flowRevenueAt_nonneg p d.year d.month hpct
  have htc0 := timeChargeAt_nonneg p d.year d.month
  have hrevdec : getMonthlyRevenue p d = flowRevenueAt p d.year d.month +
      stockRevenueAt p d.year d.month + timeChargeAt p d.year d.month := rfl
  unfold stockPartOf
  cases hu : p.useStock with
  | false =>
    simp only [Bool.false_and, Bool.false_eq_true, if_false, Bool.and_true,
      Bool.and_false]
    split
    · exact le_refl _
    · exact hrev0
  | true =>
    cases hf : p.useFlow with
    | false =>
      simp only [Bool.not_false, Bool.and_true, Bool.true_and, if_pos rfl]
      exact le_refl _
    | true =>
      have hsome := hstock hu hf
      cases hss : p.stockStartDate with
      | none =>
        rw [hss] at hsome
        exact Bool.noConfusion hsome
      | some sd =>
        have hstockrev : stockRevenueAt p d.year d.month =
            (if dleb (parseYmd sd) (mkDate d.year (d.month + 1) 0) then
              (p.stockAmount : ℤ) else 0) := by
          unfold stockRevenueAt
          rw [hu, hss]
        simp only [Bool.not_true, Bool.and_false, Bool.false_eq_true, if_false,
          Bool.and_self, if_pos rfl]
        show (if dleb (parseLocalDate today (some sd))
            (mkDate d.year (d.month + 1) 0) then (p.stockAmount : ℤ) else 0) ≤ _
        show (if dleb (parseYmd sd)
            (mkDate d.year (d.month + 1) 0) then (p.stockAmount : ℤ) else 0) ≤ _
        split
        · rename_i hcond
          rw [if_pos hcond] at hstockrev
          omega
        · exact hrev0

/-- Per month, stock share plus flow share reconstitutes total revenue. -/
theorem monthSplit_sum (today : JDate) (projects : List Project) (d : JDate) :
    monthStockRevenue today projects d + monthFlowRevenue today projects d
      = monthRevenue projects d := by
  induction projects with
  | nil => rfl
  | cons hd tl ih =>
    unfold monthStockRevenue monthFlowRevenue monthRevenue at ih ⊢
    simp only [List.map_cons, List.sum_cons]
    omega

/-- Aggregated stock revenue stays within total revenue under the same
side conditions. -/
theorem monthStockRevenue_le (today : JDate) (projects : List Project)
    (d : JDate)
    (hstock : ∀ p ∈ projects, p.useStock = true → p.useFlow = true →
      p.stockStartDate.isSome = true)
    (hpct : ∀ p ∈ projects, p.billingConfig.flowStartPercent ≤ 100) :
    monthStockRevenue today projects d ≤ monthRevenue projects d := by
  induction projects with
  | nil => exact le_refl _
  | cons hd tl ih =>
    have h1 := stockPartOf_le today hd d (hstock hd (List.mem_cons_self hd tl))
      (hpct hd (List.mem_cons_self hd tl))
    have h2 := ih (fun p hp => hstock p (List.mem_cons_of_mem hd hp))
      (fun p hp => hpct p (List.mem_cons_of_mem hd hp))
    unfold monthStockRevenue monthRevenue at h2 ⊢
    simp only [List.map_cons, List.sum_cons]
    omega

/-- **C7, amended** (flow/stock split cap): provided every hybrid
(flow+stock) project has a stock start date and split ratios are
percentages, every monthly record satisfies
`stockRevenue + flowRevenue = revenue`, `stockRevenue ≤ revenue` and
`flowRevenue ≥ 0`.  (The original claim fails when a hybrid project has
an empty stock start date: the split then attributes the full stock
amount to a month whose recognized revenue does not contain it — see the
counterexample.) -/
theorem c7_flow_stock_split_cap (today : JDate) (projects : List Project)
    (employees : List Employee) (workLogs : List WorkLog) (termStart : JDate)
    (settings : AppSettings) (i : ℕ) (r : MonthRecord)
    (hr : (generateProjections today projects employees workLogs termStart
        settings)[i]? = some r)
    (hstock : ∀ p ∈ projects, p.useStock = true → p.useFlow = true →
      p.stockStartDate.isSome = true)
    (hpct : ∀ p ∈ projects, p.billingConfig.flowStartPercent ≤ 100) :
    r.stockRevenue + r.flowRevenue = r.revenue ∧
      r.stockRevenue ≤ r.revenue ∧ 0 ≤ r.flowRevenue := by
  have hi : i < 12 := by
    by_contra hge
    rw [generateProjections, List.getElem?_eq_none (by
      rw [generateProjectionsAux_length]; omega)] at hr
    exact Option.noConfusion hr
  rw [generateProjections,
    generateProjectionsAux_get today projects employees workLogs termStart
      settings 12 0 settings.initialCashBalance i hi] at hr
  have hrv := (Option.some.injEq _ _).mp hr
  subst hrv
  have hsum := monthSplit_sum today projects (termMonthDate termStart (0 + i))
  have hle := monthStockRevenue_le today projects
    (termMonthDate termStart (0 + i)) hstock hpct
  have er : (monthRecordAt today projects employees workLogs termStart settings
      (0 + i) (settings.initialCashBalance + ((List.range (i + 1)).map (fun j =>
        monthChange today projects employees workLogs termStart settings
          (0 + j))).sum)).revenue
      = monthRevenue projects (termMonthDate termStart (0 + i)) := rfl
  have es : (monthRecordAt today projects employees workLogs termStart settings
      (0 + i) (settings.initialCashBalance + ((List.range (i + 1)).map (fun j =>
        monthChange today projects employees workLogs termStart settings
          (0 + j))).sum)).stockRevenue
      = monthStockRevenue today projects (termMonthDate termStart (0 + i)) := rfl
  have ef : (monthRecordAt today projects employees workLogs termStart settings
      (0 + i) (settings.initialCashBalance + ((List.range (i + 1)).map (fun j =>
        monthChange today projects employees workLogs termStart settings
          (0 + j))).sum)).flowRevenue
      = monthFlowRevenue today projects (termMonthDate termStart (0 + i)) := rfl
  rw [er, es, ef]
  exact ⟨hsum, hle, by omega⟩

/-- Concrete instance of amended C7: a pure stock project satisfies the
cap and nonnegativity in month 1 of term 2025. -/
theorem c7_flow_stock_split_cap_witness :
    (∀ p ∈ [sampleStock], p.useStock = true → p.useFlow = true →
        p.stockStartDate.isSome = true) ∧
      ((generateProjections ⟨2000, 0, 1⟩ [sampleStock] [] [] (mkDate 2024 11 1)
          sampleSettings)[1]?).map
        (fun r => decide (r.stockRevenue + r.flowRevenue = r.revenue ∧
          r.stockRevenue ≤ r.revenue ∧ 0 ≤ r.flowRevenue))
        = some true := by
  refine ⟨by decide, ?_⟩
  cases hr : (generateProjections ⟨2000, 0, 1⟩ [sampleStock] [] [] (mkDate 2024 11 1)
      sampleSettings)[1]? with
  | none => exact absurd hr (by decide)
  | some r =>
    have h := c7_flow_stock_split_cap ⟨2000, 0, 1⟩ [sampleStock] [] []
      (mkDate 2024 11 1) sampleSettings 1 r hr (by decide) (by decide)
    rw [Option.map_some']
    exact congrArg some (decide_eq_true h)

/-- Mapping a constant zero sums to zero. -/
theorem list_sum_map_zero {α : Type} (l : List α) :
    (l.map (fun _ => (0 : ℤ))).sum = 0 := by
  induction l with
  | nil => rfl
  | cons hd tl ih =>
    simp only [List.map_cons, List.sum_cons, ih]
    omega

/-- Pointwise sums split. -/
theorem list_sum_map_add {α : Type} (l : List α) (f g : α → ℤ) :
    (l.map (fun x => f x + g x)).sum = (l.map f).sum + (l.map g).sum := by
  induction l with
  | nil => rfl
  | cons hd tl ih =>
    simp only [List.map_cons, List.sum_cons, ih]
    omega

/-- Exchanging a day-indexed and a list-indexed sum. -/
theorem sum_comm_list {α : Type} (l : List α) (n : ℕ) (f : α → ℕ → ℤ) :
    ((List.range n).map (fun k => (l.map (fun x => f x k)).sum)).sum
      = (l.map (fun x => ((List.range n).map (fun k => f x k)).sum)).sum := by
  induction l with
  | nil =>
    simp only [List.map_nil, List.sum_nil]
    exact list_sum_map_zero _
  | cons hd tl ih =>
    simp only [List.map_cons, List.sum_cons]
    rw [← ih]
    rw [← list_sum_map_add (List.range n) (fun k => f hd k)
      (fun k => (tl.map (fun x => f x k)).sum)]

/-- A day-indicator function summed over days 1..n when no day matches. -/
theorem sum_range_day_zero (n : ℕ) (d0 V : ℤ)
    (h : ∀ k : ℕ, k < n → d0 ≠ 1 + (k : ℤ)) :
    ((List.range n).map (fun (k : ℕ) => if d0 = 1 + (k : ℤ) then V else 0)).sum = 0 := by
  induction n with
  | zero => rfl
  | succ m ih =>
    rw [List.range_succ, List.map_append, List.sum_append]
    rw [ih (fun k hk => h k (by omega))]
    simp only [List.map_cons, List.map_nil, List.sum_cons, List.sum_nil]
    rw [if_neg (h m (by omega))]
    omega

/-- A day-indicator function summed over days 1..n hits its day once. -/
theorem sum_range_day (n : ℕ) (d0 V : ℤ) (h1 : 1 ≤ d0) (h2 : d0 ≤ (n : ℤ)) :
    ((List.range n).map (fun (k : ℕ) => if d0 = 1 + (k : ℤ) then V else 0)).sum = V := by
  induction n with
  | zero => omega
  | succ m ih =>
    rw [List.range_succ, List.map_append, List.sum_append]
    simp only [List.map_cons, List.map_nil, List.sum_cons, List.sum_nil]
    by_cases hlast : d0 = 1 + (m : ℤ)
    · rw [sum_range_day_zero m d0 V (fun k hk => by omega)]
      rw [if_pos hlast]
      omega
    · rw [ih (by omega)]
      rw [if_neg hlast]
      omega

/-- For a normalized month, `getTotalDays` is the month length. -/
theorem getTotalDays_eq (year month : ℤ) (hm : 0 ≤ month ∧ month < 12) :
    getTotalDays year month = daysInMonth year month := by
  unfold getTotalDays
  rw [mkDate_day_zero]
  show daysInMonth ((year * 12 + month) / 12) ((year * 12 + month) % 12) = _
  rw [show (year * 12 + month) / 12 = year by omega,
    show (year * 12 + month) % 12 = month by omega]

/-- Reconstructing a normalized first-of-month date. -/
theorem mkDate_self_first (d : JDate) (hv : d.Valid) (hd : d.day = 1) :
    mkDate d.year d.month 1 = d := by
  obtain ⟨h1, h2, h3, h4⟩ := hv
  rw [mkDate_norm_args d.year d.month 1 ⟨h1, h2⟩ (le_refl 1) (by
    have := daysInMonth_bounds d.year d.month
    omega)]
  cases d
  simp only at hd ⊢
  rw [hd]

/-- The changes of the daily walk are the day-indexed changes. -/
theorem generateDailyCashFlowAux_changes (date : JDate) (projects : List Project)
    (settings : AppSettings) :
    ∀ (n : ℕ) (dday bal : ℤ),
      ((generateDailyCashFlowAux date projects settings n dday bal).map
        (fun rec => rec.change)).sum
        = ((List.range n).map (fun (k : ℕ) =>
            dailyChangeAt date projects settings (dday + (k : ℤ)))).sum := by
  intro n
  induction n with
  | zero => intro dday bal; rfl
  | succ m ih =>
    intro dday bal
    rw [generateDailyCashFlowAux]
    simp only [List.map_cons, List.sum_cons]
    rw [ih (dday + 1)]
    rw [List.range_succ_eq_map, List.map_cons, List.sum_cons, List.map_map]
    rw [show dday + ((0 : ℕ) : ℤ) = dday by omega]
    congr 2
    apply List.map_congr_left
    intro j hj
    show dailyChangeAt date projects settings (dday + 1 + (j : ℤ)) = _
    congr 1
    push_cast
    ring

/-- Total of the daily changes of `generateDailyCashFlow`. -/
theorem generateDailyCashFlow_changes (date : JDate) (projects : List Project)
    (settings : AppSettings) (bal : ℤ) :
    ((generateDailyCashFlow date projects settings bal).map
      (fun rec => rec.change)).sum
      = ((List.range (getTotalDays date.year date.month).toNat).map (fun (k : ℕ) =>
          dailyChangeAt date projects settings (1 + (k : ℤ)))).sum := by
  unfold generateDailyCashFlow
  rw [generateDailyCashFlowAux_changes]

/-- Flow start payments: under the 10-yen granularity hypothesis, the
month's daily contributions sum to the marked-up monthly contribution
(`⌊1.1 · amt⌋ = 1.1 · amt` exactly). -/
theorem flowStart_event_sum (p : Project) (year month : ℤ)
    (hm : 0 ≤ month ∧ month < 12)
    (h : ∃ a : ℕ, flowStartDailyAmtQ p = 10 * (a : ℚ)) :
    ∃ a : ℕ, flowStartCashQ p year month = 10 * (a : ℚ) ∧
      ((List.range (getTotalDays year month).toNat).map (fun (k : ℕ) =>
        flowStartDaily p year month (1 + (k : ℤ)))).sum = 11 * (a : ℤ) := by
  obtain ⟨a0, ha0⟩ := h
  have hb := daysInMonth_bounds year month
  have hN : (((getTotalDays year month).toNat : ℕ) : ℤ) = daysInMonth year month := by
    rw [Int.toNat_of_nonneg (by rw [getTotalDays_eq year month hm]; omega)]
    rw [getTotalDays_eq year month hm]
  cases hu : p.useFlow with
  | false =>
    refine ⟨0, ?_, ?_⟩
    · unfold flowStartCashQ
      rw [hu]
      norm_num
    · have hz : ∀ k : ℕ, flowStartDaily p year month (1 + (k : ℤ)) = 0 := by
        intro k
        unfold flowStartDaily
        rw [hu]
        rfl
      rw [List.map_congr_left (fun k _ => hz k), list_sum_map_zero]
      norm_num
  | true =>
    cases hsd : p.flowStartDate with
    | none =>
      refine ⟨0, ?_, ?_⟩
      · unfold flowStartCashQ
        rw [hu, hsd]
        norm_num
      · have hz : ∀ k : ℕ, flowStartDaily p year month (1 + (k : ℤ)) = 0 := by
          intro k
          unfold flowStartDaily
          rw [hu, hsd]
          rfl
        rw [List.map_congr_left (fun k _ => hz k), list_sum_map_zero]
        norm_num
    | some sd =>
      set P : JDate := getPaymentDate (parseYmd sd).year (parseYmd sd).month
        ((p.billingConfig.flowStartDelay : ℤ))
        (if p.billingConfig.flowStartPayDay = 0 then (99 : ℤ)
         else (p.billingConfig.flowStartPayDay : ℤ)) with hPdef
      have hval : P.Valid := by
        rw [hPdef]
        exact getPaymentDate_valid _ _ _ _
      have hMonthly : flowStartCashQ p year month =
          if P.year = year ∧ P.month = month then flowStartDailyAmtQ p else 0 := by
        unfold flowStartCashQ flowStartDailyAmtQ
        rw [hu, hsd, hPdef]
        rfl
      have hDaily : ∀ dd : ℤ, flowStartDaily p year month dd =
          if P.year = year ∧ P.month = month ∧ P.day = dd ∧
              0 < flowStartDailyAmtQ p then
            Int.floor (flowStartDailyAmtQ p * (11 / 10))
          else 0 := by
        intro dd
        unfold flowStartDaily
        rw [hu, hsd, hPdef]
        rfl
      by_cases hin : P.year = year ∧ P.month = month
      · by_cases hpos : 0 < flowStartDailyAmtQ p
        · refine ⟨a0, ?_, ?_⟩
          · rw [hMonthly, if_pos hin, ha0]
          · have hday1 : 1 ≤ P.day := hval.2.2.1
            have hday2 : P.day ≤ (((getTotalDays year month).toNat : ℕ) : ℤ) := by
              have h4 := hval.2.2.2
              rw [hin.1, hin.2] at h4
              omega
            have hterm : ∀ k : ℕ, flowStartDaily p year month (1 + (k : ℤ)) =
                if P.day = 1 + (k : ℤ) then
                  Int.floor (flowStartDailyAmtQ p * (11 / 10)) else 0 := by
              intro k
              rw [hDaily]
              by_cases hd : P.day = 1 + (k : ℤ)
              · rw [if_pos ⟨hin.1, hin.2, hd, hpos⟩, if_pos hd]
              · rw [if_neg (fun hc => hd hc.2.2.1), if_neg hd]
            rw [List.map_congr_left (fun k _ => hterm k)]
            rw [sum_range_day _ P.day _ hday1 hday2]
            rw [ha0]
            rw [show (10 * (a0 : ℚ)) * (11 / 10) = ((11 * a0 : ℕ) : ℚ) by
              push_cast; ring]
            rw [Int.floor_natCast]
            push_cast
            ring
        · have hle : flowStartDailyAmtQ p ≤ 0 := not_lt.mp hpos
          rw [ha0] at hle
          have ha00 : a0 = 0 := by
            have h1 : (a0 : ℚ) ≤ 0 := by linarith
            have h2 : (0 : ℚ) ≤ (a0 : ℚ) := by positivity
            exact_mod_cast le_antisymm h1 h2
          refine ⟨0, ?_, ?_⟩
          · rw [hMonthly, if_pos hin, ha0, ha00]
          · have hz : ∀ k : ℕ, flowStartDaily p year month (1 + (k : ℤ)) = 0 := by
              intro k
              rw [hDaily]
              exact if_neg (fun hc => hpos hc.2.2.2)
            rw [List.map_congr_left (fun k _ => hz k), list_sum_map_zero]
            norm_num
      · refine ⟨0, ?_, ?_⟩
        · rw [hMonthly, if_neg hin]
          norm_num
        · have hz : ∀ k : ℕ, flowStartDaily p year month (1 + (k : ℤ)) = 0 := by
            intro k
            rw [hDaily]
            exact if_neg (fun hc => hin ⟨hc.1, hc.2.1⟩)
          rw [List.map_congr_left (fun k _ => hz k), list_sum_map_zero]
          norm_num

/-- Flow end payments: daily/monthly correspondence, as for start
payments. -/
theorem flowEnd_event_sum (p : Project) (year month : ℤ)
    (hm : 0 ≤ month ∧ month < 12)
    (h : ∃ a : ℕ, flowEndDailyAmtQ p = 10 * (a : ℚ)) :
    ∃ a : ℕ, flowEndCashQ p year month = 10 * (a : ℚ) ∧
      ((List.range (getTotalDays year month).toNat).map (fun (k : ℕ) =>
        flowEndDaily p year month (1 + (k : ℤ)))).sum = 11 * (a : ℤ) := by
  obtain ⟨a0, ha0⟩ := h
  have hb := daysInMonth_bounds year month
  have hN : (((getTotalDays year month).toNat : ℕ) : ℤ) = daysInMonth year month := by
    rw [Int.toNat_of_nonneg (by rw [getTotalDays_eq year month hm]; omega)]
    rw [getTotalDays_eq year month hm]
  cases hu : p.useFlow with
  | false =>
    refine ⟨0, ?_, ?_⟩
    · unfold flowEndCashQ
      rw [hu]
      norm_num
    · have hz : ∀ k : ℕ, flowEndDaily p year month (1 + (k : ℤ)) = 0 := by
        intro k
        unfold flowEndDaily
        rw [hu]
        rfl
      rw [List.map_congr_left (fun k _ => hz k), list_sum_map_zero]
      norm_num
  | true =>
    cases hsd : p.flowEndDate with
    | none =>
      refine ⟨0, ?_, ?_⟩
      · unfold flowEndCashQ
        rw [hu, hsd]
        norm_num
      · have hz : ∀ k : ℕ, flowEndDaily p year month (1 + (k : ℤ)) = 0 := by
          intro k
          unfold flowEndDaily
          rw [hu, hsd]
          rfl
        rw [List.map_congr_left (fun k _ => hz k), list_sum_map_zero]
        norm_num
    | some ed =>
      set P : JDate := getPaymentDate (parseYmd ed).year (parseYmd ed).month
        ((p.billingConfig.flowEndDelay : ℤ))
        (if p.billingConfig.flowEndPayDay = 0 then (99 : ℤ)
         else (p.billingConfig.flowEndPayDay : ℤ)) with hPdef
      have hval : P.Valid := by
        rw [hPdef]
        exact getPaymentDate_valid _ _ _ _
      have hMonthly : flowEndCashQ p year month =
          if P.year = year ∧ P.month = month then flowEndDailyAmtQ p else 0 := by
        unfold flowEndCashQ flowEndDailyAmtQ
        rw [hu, hsd, hPdef]
        rfl
      have hDaily : ∀ dd : ℤ, flowEndDaily p year month dd =
          if P.year = year ∧ P.month = month ∧ P.day = dd ∧
              0 < flowEndDailyAmtQ p then
            Int.floor (flowEndDailyAmtQ p * (11 / 10))
          else 0 := by
        intro dd
        unfold flowEndDaily
        rw [hu, hsd, hPdef]
        rfl
      by_cases hin : P.year = year ∧ P.month = month
      · by_cases hpos : 0 < flowEndDailyAmtQ p
        · refine ⟨a0, ?_, ?_⟩
          · rw [hMonthly, if_pos hin, ha0]
          · have hday1 : 1 ≤ P.day := hval.2.2.1
            have hday2 : P.day ≤ (((getTotalDays year month).toNat : ℕ) : ℤ) := by
              have h4 := hval.2.2.2
              rw [hin.1, hin.2] at h4
              omega
            have hterm : ∀ k : ℕ, flowEndDaily p year month (1 + (k : ℤ)) =
                if P.day = 1 + (k : ℤ) then
                  Int.floor (flowEndDailyAmtQ p * (11 / 10)) else 0 := by
              intro k
              rw [hDaily]
              by_cases hd : P.day = 1 + (k : ℤ)
              · rw [if_pos ⟨hin.1, hin.2, hd, hpos⟩, if_pos hd]
              · rw [if_neg (fun hc => hd hc.2.2.1), if_neg hd]
            rw [List.map_congr_left (fun k _ => hterm k)]
            rw [sum_range_day _ P.day _ hday1 hday2]
            rw [ha0]
            rw [show (10 * (a0 : ℚ)) * (11 / 10) = ((11 * a0 : ℕ) : ℚ) by
              push_cast; ring]
            rw [Int.floor_natCast]
            push_cast
            ring
        · have hle : flowEndDailyAmtQ p ≤ 0 := not_lt.mp hpos
          rw [ha0] at hle
          have ha00 : a0 = 0 := by
            have h1 : (a0 : ℚ) ≤ 0 := by linarith
            have h2 : (0 : ℚ) ≤ (a0 : ℚ) := by positivity
            exact_mod_cast le_antisymm h1 h2
          refine ⟨0, ?_, ?_⟩
          · rw [hMonthly, if_pos hin, ha0, ha00]
          · have hz : ∀ k : ℕ, flowEndDaily p year month (1 + (k : ℤ)) = 0 := by
              intro k
              rw [hDaily]
              exact if_neg (fun hc => hpos hc.2.2.2)
            rw [List.map_congr_left (fun k _ => hz k), list_sum_map_zero]
            norm_num
      · refine ⟨0, ?_, ?_⟩
        · rw [hMonthly, if_neg hin]
          norm_num
        · have hz : ∀ k : ℕ, flowEndDaily p year month (1 + (k : ℤ)) = 0 := by
            intro k
            rw [hDaily]
            exact if_neg (fun hc => hin ⟨hc.1, hc.2.1⟩)
          rw [List.map_congr_left (fun k _ => hz k), list_sum_map_zero]
          norm_num

/-- Stock / time-charge payments: with a 10-yen-granular amount and a pay
day that exists in the target month (or 99), the daily path posts exactly
the marked-up monthly inflow. -/
theorem stock_event_sum (p : Project) (year month : ℤ)
    (hm : 0 ≤ month ∧ month < 12)
    (hc : ∃ c : ℕ, stockTimeChargeCash p year month = 10 * (c : ℤ))
    (hpd : p.billingConfig.stockPayDay = 0 ∨ p.billingConfig.stockPayDay = 99 ∨
      (1 ≤ (p.billingConfig.stockPayDay : ℤ) ∧
        (p.billingConfig.stockPayDay : ℤ) ≤ getTotalDays year month)) :
    ∃ c : ℕ, stockTimeChargeCash p year month = 10 * (c : ℤ) ∧
      ((List.range (getTotalDays year month).toNat).map (fun (k : ℕ) =>
        stockDaily p year month (1 + (k : ℤ)))).sum = 11 * (c : ℤ) := by
  obtain ⟨c0, hc0⟩ := hc
  have hb := daysInMonth_bounds year month
  have hNd : getTotalDays year month = daysInMonth year month :=
    getTotalDays_eq year month hm
  have hN : (((getTotalDays year month).toNat : ℕ) : ℤ) = daysInMonth year month := by
    rw [Int.toNat_of_nonneg (by omega)]
    exact hNd
  by_cases hg : ((p.useStock && p.stockStartDate.isSome) || p.useTimeCharge) = true
  · set delay : ℤ := (p.billingConfig.stockDelay : ℤ) with hdelay
    set payDay : ℤ :=
      (if p.billingConfig.stockPayDay = 0 then (99 : ℤ)
       else (p.billingConfig.stockPayDay : ℤ)) with hpayDay
    set target : JDate := mkDate year (month - delay) 1 with htarget
    set rev : ℤ := getMonthlyRevenue p target with hrev
    set pd : JDate := getPaymentDate target.year target.month delay payDay
      with hpddef
    have hMonthly : stockTimeChargeCash p year month =
        if 0 < rev then rev else 0 := by
      unfold stockTimeChargeCash
      rw [if_pos hg, hrev, htarget, hdelay]
    have hDaily : ∀ dd : ℤ, stockDaily p year month dd =
        if 0 < rev then
          (if pd.year = year ∧ pd.month = month ∧ pd.day = dd then
            Int.floor ((rev : ℚ) * (11 / 10))
          else 0)
        else 0 := by
      intro dd
      unfold stockDaily
      rw [if_pos hg, hpddef, hrev, htarget, hdelay, hpayDay]
    have htk := mkDate_first_key year (month - delay)
    have hsy : shiftedYear target.year target.month delay = year := by
      unfold shiftedYear
      rw [htarget]
      omega
    have hsm : shiftedMonth target.year target.month delay = month := by
      unfold shiftedMonth
      rw [htarget]
      omega
    have hpdym : pd.year = year ∧ pd.month = month ∧ 1 ≤ pd.day ∧
        pd.day ≤ daysInMonth year month := by
      rcases hpd with h0 | h99 | hin
      · have hp99 : payDay = 99 := by rw [hpayDay, h0]; rfl
        rw [hpddef, hp99, getPaymentDate_99, hsy, hsm]
        refine ⟨rfl, rfl, ?_, ?_⟩
        · show 1 ≤ daysInMonth year month
          omega
        · show daysInMonth year month ≤ daysInMonth year month
          omega
      · have hp99 : payDay = 99 := by
          rw [hpayDay, h99]
          norm_num
        rw [hpddef, hp99, getPaymentDate_99, hsy, hsm]
        refine ⟨rfl, rfl, ?_, ?_⟩
        · show 1 ≤ daysInMonth year month
          omega
        · show daysInMonth year month ≤ daysInMonth year month
          omega
      · have hne0 : p.billingConfig.stockPayDay ≠ 0 := by
          intro h0
          rw [h0] at hin
          omega
        have hpv : payDay = (p.billingConfig.stockPayDay : ℤ) := by
          rw [hpayDay, if_neg hne0]
        rw [hpddef, hpv,
          getPaymentDate_inRange _ _ _ _ (by omega) (by omega)
            (by rw [hsy, hsm]; omega)]
        rw [hsy, hsm]
        refine ⟨rfl, rfl, ?_, ?_⟩
        · show 1 ≤ (p.billingConfig.stockPayDay : ℤ)
          omega
        · show (p.billingConfig.stockPayDay : ℤ) ≤ daysInMonth year month
          omega
    by_cases hpos : 0 < rev
    · have hrev10 : rev = 10 * (c0 : ℤ) := by
        rw [hMonthly, if_pos hpos] at hc0
        exact hc0
      refine ⟨c0, hc0, ?_⟩
      have hterm : ∀ k : ℕ, stockDaily p year month (1 + (k : ℤ)) =
          if pd.day = 1 + (k : ℤ) then Int.floor ((rev : ℚ) * (11 / 10))
          else 0 := by
        intro k
        rw [hDaily, if_pos hpos]
        by_cases hd : pd.day = 1 + (k : ℤ)
        · rw [if_pos ⟨hpdym.1, hpdym.2.1, hd⟩, if_pos hd]
        · rw [if_neg (fun hcc => hd hcc.2.2), if_neg hd]
      rw [List.map_congr_left (fun k _ => hterm k)]
      rw [sum_range_day _ pd.day _ hpdym.2.2.1 (by omega)]
      rw [hrev10]
      rw [show (((10 * (c0 : ℤ) : ℤ) : ℚ)) * (11 / 10) = ((11 * c0 : ℕ) : ℚ) by
        push_cast; ring]
      rw [Int.floor_natCast]
      push_cast
      ring
    · have hc00 : c0 = 0 := by
        rw [hMonthly, if_neg hpos] at hc0
        omega
      refine ⟨0, ?_, ?_⟩
      · rw [hMonthly, if_neg hpos]
        norm_num
      · have hz : ∀ k : ℕ, stockDaily p year month (1 + (k : ℤ)) = 0 := by
          intro k
          rw [hDaily, if_neg hpos]
        rw [List.map_congr_left (fun k _ => hz k), list_sum_map_zero]
        norm_num
  · refine ⟨0, ?_, ?_⟩
    · unfold stockTimeChargeCash
      rw [if_neg hg]
      norm_num
    · have hz : ∀ k : ℕ, stockDaily p year month (1 + (k : ℤ)) = 0 := by
        intro k
        unfold stockDaily
        rw [if_neg hg]
      rw [List.map_congr_left (fun k _ => hz k), list_sum_map_zero]
      norm_num

/-- One project's combined daily postings match its combined monthly
inflow at 10-yen granularity. -/
theorem c3_project_sum (p : Project) (year month : ℤ)
    (hm : 0 ≤ month ∧ month < 12)
    (hfs : ∃ a : ℕ, flowStartDailyAmtQ p = 10 * (a : ℚ))
    (hfe : ∃ a : ℕ, flowEndDailyAmtQ p = 10 * (a : ℚ))
    (hst : ∃ c : ℕ, stockTimeChargeCash p year month = 10 * (c : ℤ))
    (hpd : p.billingConfig.stockPayDay = 0 ∨ p.billingConfig.stockPayDay = 99 ∨
      (1 ≤ (p.billingConfig.stockPayDay : ℤ) ∧
        (p.billingConfig.stockPayDay : ℤ) ≤ getTotalDays year month)) :
    ∃ m : ℕ,
      flowStartCashQ p year month + flowEndCashQ p year month +
          (stockTimeChargeCash p year month : ℚ) = 10 * (m : ℚ) ∧
      ((List.range (getTotalDays year month).toNat).map (fun (k : ℕ) =>
        flowStartDaily p year month (1 + (k : ℤ)) +
          flowEndDaily p year month (1 + (k : ℤ)) +
          stockDaily p year month (1 + (k : ℤ)))).sum = 11 * (m : ℤ) := by
  obtain ⟨a, ha1, ha2⟩ := flowStart_event_sum p year month hm hfs
  obtain ⟨b, hb1, hb2⟩ := flowEnd_event_sum p year month hm hfe
  obtain ⟨c, hc1, hc2⟩ := stock_event_sum p year month hm hst hpd
  refine ⟨a + b + c, ?_, ?_⟩
  · rw [ha1, hb1, hc1]
    push_cast
    ring
  · rw [list_sum_map_add (List.range (getTotalDays year month).toNat)
      (fun k => flowStartDaily p year month (1 + (k : ℤ)) +
        flowEndDaily p year month (1 + (k : ℤ)))
      (fun k => stockDaily p year month (1 + (k : ℤ)))]
    rw [list_sum_map_add (List.range (getTotalDays year month).toNat)
      (fun k => flowStartDaily p year month (1 + (k : ℤ)))
      (fun k => flowEndDaily p year month (1 + (k : ℤ)))]
    rw [ha2, hb2, hc2]
    push_cast
    ring

/-- Aggregated over all projects: the monthly raw inflow is 10·M and the
daily project postings total 11·M. -/
theorem c3_projects_sum (projects : List Project) (year month : ℤ)
    (hm : 0 ≤ month ∧ month < 12)
    (Hfs : ∀ p ∈ projects, ∃ a : ℕ, flowStartDailyAmtQ p = 10 * (a : ℚ))
    (Hfe : ∀ p ∈ projects, ∃ a : ℕ, flowEndDailyAmtQ p = 10 * (a : ℚ))
    (Hst : ∀ p ∈ projects, ∃ c : ℕ,
      stockTimeChargeCash p year month = 10 * (c : ℤ))
    (Hpd : ∀ p ∈ projects,
      p.billingConfig.stockPayDay = 0 ∨ p.billingConfig.stockPayDay = 99 ∨
        (1 ≤ (p.billingConfig.stockPayDay : ℤ) ∧
          (p.billingConfig.stockPayDay : ℤ) ≤ getTotalDays year month)) :
    ∃ M : ℕ, monthCashInQ projects year month = 10 * (M : ℚ) ∧
      (projects.map (fun p =>
        ((List.range (getTotalDays year month).toNat).map (fun (k : ℕ) =>
          flowStartDaily p year month (1 + (k : ℤ)) +
            flowEndDaily p year month (1 + (k : ℤ)) +
            stockDaily p year month (1 + (k : ℤ)))).sum)).sum = 11 * (M : ℤ) := by
  induction projects with
  | nil =>
    refine ⟨0, ?_, ?_⟩
    · unfold monthCashInQ
      norm_num
    · norm_num
  | cons hd tl ih =>
    obtain ⟨m, hm1, hm2⟩ := c3_project_sum hd year month hm
      (Hfs hd (List.mem_cons_self hd tl)) (Hfe hd (List.mem_cons_self hd tl))
      (Hst hd (List.mem_cons_self hd tl)) (Hpd hd (List.mem_cons_self hd tl))
    obtain ⟨M, hM1, hM2⟩ := ih
      (fun p hp => Hfs p (List.mem_cons_of_mem hd hp))
      (fun p hp => Hfe p (List.mem_cons_of_mem hd hp))
      (fun p hp => Hst p (List.mem_cons_of_mem hd hp))
      (fun p hp => Hpd p (List.mem_cons_of_mem hd hp))
    refine ⟨m + M, ?_, ?_⟩
    · unfold monthCashInQ at hM1 ⊢
      simp only [List.map_cons, List.sum_cons]
      rw [hM1, hm1]
      push_cast
      ring
    · simp only [List.map_cons, List.sum_cons]
      rw [hM2, hm2]
      push_cast
      ring

/-- One ledger item's daily postings over a month: the signed amount when
the item occurs (and its pay day exists in the month), zero otherwise. -/
theorem item_event_sum (item : CashFlowItem) (year month : ℤ)
    (hm : 0 ≤ month ∧ month < 12)
    (hp : item.isRecurring = true →
      cashFlowItemOccurs item (mkDate year month 1) = true →
      item.payDay = 99 ∨ item.payDay = 0 ∨
        (1 ≤ item.payDay ∧ (item.payDay : ℤ) ≤ getTotalDays year month)) :
    ((List.range (getTotalDays year month).toNat).map (fun (k : ℕ) =>
      itemDaily item year month (1 + (k : ℤ)))).sum
      = if cashFlowItemOccurs item (mkDate year month 1) then
          (if item.category = CashFlowCategory.LoanIn then (item.amount : ℤ)
           else -(item.amount : ℤ))
        else 0 := by
  have hb := daysInMonth_bounds year month
  have hNd : getTotalDays year month = daysInMonth year month :=
    getTotalDays_eq year month hm
  by_cases hocc : cashFlowItemOccurs item (mkDate year month 1) = true
  · rw [if_pos hocc]
    have hday : 1 ≤ cashFlowItemDay item year month ∧
        cashFlowItemDay item year month ≤ getTotalDays year month := by
      unfold cashFlowItemDay
      cases hrec : item.isRecurring with
      | true =>
        simp only [if_pos rfl, if_true]
        rcases hp hrec hocc with h99 | h0 | hin
        · rw [h99]
          simp only [if_pos rfl, if_true]
          omega
        · rw [h0]
          norm_num
          omega
        · have hne99 : item.payDay ≠ 99 := by
            intro hcc
            rw [hcc] at hin
            omega
          have hne0 : item.payDay ≠ 0 := by omega
          rw [if_neg hne99, if_neg hne0]
          omega
      | false =>
        have hk1 := mkDate_first_key year month
        have hdy : (mkDate year month 1).year = year := by omega
        have hdm : (mkDate year month 1).month = month := by omega
        cases hpd2 : item.paymentDate with
        | some pdt =>
          have hval := parseYmd_valid pdt
          unfold cashFlowItemOccurs at hocc
          rw [hrec, hpd2] at hocc
          simp only [Bool.false_eq_true, if_false, Bool.and_eq_true,
            beq_iff_eq] at hocc
          simp only [Bool.false_eq_true, if_false]
          have h4 := hval.2.2.2
          rw [hocc.1, hocc.2, hdy, hdm] at h4
          have h3 := hval.2.2.1
          omega
        | none =>
          simp only [Bool.false_eq_true, if_false]
          omega
    have hterm : ∀ k : ℕ, itemDaily item year month (1 + (k : ℤ)) =
        if cashFlowItemDay item year month = 1 + (k : ℤ) then
          (if item.category = CashFlowCategory.LoanIn then (item.amount : ℤ)
           else -(item.amount : ℤ))
        else 0 := by
      intro k
      unfold itemDaily
      by_cases hd : cashFlowItemDay item year month = 1 + (k : ℤ)
      · rw [if_pos ⟨hocc, hd⟩, if_pos hd]
      · rw [if_neg (fun hc => hd hc.2), if_neg hd]
    rw [List.map_congr_left (fun k _ => hterm k)]
    exact sum_range_day _ _ _ hday.1 (by
      rw [Int.toNat_of_nonneg (by omega)]
      omega)
  · rw [if_neg hocc]
    have hz : ∀ k : ℕ, itemDaily item year month (1 + (k : ℤ)) = 0 := by
      intro k
      unfold itemDaily
      exact if_neg (fun hc => hocc hc.1)
    rw [List.map_congr_left (fun k _ => hz k), list_sum_map_zero]

/-- Item-wise daily postings over a month total the signed occurrence
sums: loan-ins minus the three outflow buckets. -/
theorem c3_items_list (d : JDate) (hv : d.Valid) (hd1 : d.day = 1) :
    ∀ items : List CashFlowItem,
      (∀ item ∈ items, item.isRecurring = true →
        cashFlowItemOccurs item d = true →
        item.payDay = 99 ∨ item.payDay = 0 ∨
          (1 ≤ item.payDay ∧ (item.payDay : ℤ) ≤ getTotalDays d.year d.month)) →
      (items.map (fun item =>
        ((List.range (getTotalDays d.year d.month).toNat).map (fun (k : ℕ) =>
          itemDaily item d.year d.month (1 + (k : ℤ)))).sum)).sum
        = (items.map (fun item =>
            if cashFlowItemOccurs item d then
              match item.category with
              | CashFlowCategory.LoanIn => (item.amount : ℤ)
              | _ => 0
            else 0)).sum
          - (items.map (fun item =>
              if cashFlowItemOccurs item d then
                match item.category with
                | CashFlowCategory.OperatingExpense => (item.amount : ℤ)
                | CashFlowCategory.Other => (item.amount : ℤ)
                | _ => 0
              else 0)).sum
          - (items.map (fun item =>
              if cashFlowItemOccurs item d then
                match item.category with
                | CashFlowCategory.Tax => (item.amount : ℤ)
                | CashFlowCategory.LoanRepayment => (item.amount : ℤ)
                | _ => 0
              else 0)).sum
          - (items.map (fun item =>
              if cashFlowItemOccurs item d then
                match item.category with
                | CashFlowCategory.Investment => (item.amount : ℤ)
                | _ => 0
              else 0)).sum := by
  have hself : mkDate d.year d.month 1 = d := mkDate_self_first d hv hd1
  intro items
  induction items with
  | nil => intro _; rfl
  | cons hd tl ih =>
    intro Hit
    have hE := item_event_sum hd d.year d.month ⟨hv.1, hv.2.1⟩
      (by
        intro hrec hocc2
        rw [hself] at hocc2
        exact Hit hd (List.mem_cons_self hd tl) hrec hocc2)
    rw [hself] at hE
    have hhd : (if cashFlowItemOccurs hd d then
          (if hd.category = CashFlowCategory.LoanIn then (hd.amount : ℤ)
           else -(hd.amount : ℤ))
        else 0)
        = (if cashFlowItemOccurs hd d then
            match hd.category with
            | CashFlowCategory.LoanIn => (hd.amount : ℤ)
            | _ => 0
          else 0)
          - (if cashFlowItemOccurs hd d then
              match hd.category with
              | CashFlowCategory.OperatingExpense => (hd.amount : ℤ)
              | CashFlowCategory.Other => (hd.amount : ℤ)
              | _ => 0
            else 0)
          - (if cashFlowItemOccurs hd d then
              match hd.category with
              | CashFlowCategory.Tax => (hd.amount : ℤ)
              | CashFlowCategory.LoanRepayment => (hd.amount : ℤ)
              | _ => 0
            else 0)
          - (if cashFlowItemOccurs hd d then
              match hd.category with
              | CashFlowCategory.Investment => (hd.amount : ℤ)
              | _ => 0
            else 0) := by
      by_cases hocc : cashFlowItemOccurs hd d = true
      · simp only [hocc, if_true]
        cases hcat : hd.category <;> simp
      · simp only [if_neg hocc]
        omega
    simp only [List.map_cons, List.sum_cons]
    rw [ih (fun item hit => Hit item (List.mem_cons_of_mem hd hit))]
    rw [hE, hhd]
    ring

/-- The ledger-item side of the daily/monthly correspondence, stated
against the month buckets of `generateProjections`. -/
theorem c3_items_total (settings : AppSettings) (d : JDate) (hv : d.Valid)
    (hd1 : d.day = 1)
    (Hit : ∀ item ∈ settings.cashFlowItems, item.isRecurring = true →
      cashFlowItemOccurs item d = true →
      item.payDay = 99 ∨ item.payDay = 0 ∨
        (1 ≤ item.payDay ∧ (item.payDay : ℤ) ≤ getTotalDays d.year d.month)) :
    (settings.cashFlowItems.map (fun item =>
      ((List.range (getTotalDays d.year d.month).toNat).map (fun (k : ℕ) =>
        itemDaily item d.year d.month (1 + (k : ℤ)))).sum)).sum
      = monthFinancialIn settings d - monthSga settings d -
          monthTaxRepayment settings d - monthInvestment settings d :=
  c3_items_list d hv hd1 settings.cashFlowItems Hit

/-- The date of a month record is the first day of its term month. -/
theorem monthRecordAt_date (today : JDate) (projects : List Project)
    (employees : List Employee) (workLogs : List WorkLog) (termStart : JDate)
    (settings : AppSettings) (i : ℕ) (bal : ℤ) :
    (monthRecordAt today projects employees workLogs termStart settings i
        bal).date = termMonthDate termStart i :=
  rfl

/-- **C3** (monthly/daily cash-flow consistency, amended): for every
record of the 12-month projection, the daily changes of
`generateDailyCashFlow` run on that record's month sum to the record's
`totalCashIn - totalCashOut + cost` — not to the net change
`totalCashIn - totalCashOut` of the original claim, because the daily
path never posts the labor outflow (the `cost` bucket).  The inflow sides
agree only up to rounding, so this holds under granularity hypotheses
ruling out rounding divergence: every flow payment amount and stock
receipt is a multiple of 10 (making the per-event and aggregate
`Math.floor(x * 1.1)` agree), stock pay days and the pay days of
occurring recurring ledger items exist in the month (or are the 99 /
absent sentinels), so no daily posting rolls past month end. -/
theorem c3_daily_monthly_consistency (today : JDate) (projects : List Project)
    (employees : List Employee) (workLogs : List WorkLog)
    (termStart : JDate) (settings : AppSettings) (i : ℕ) (r : MonthRecord)
    (b : ℤ)
    (hr : (generateProjections today projects employees workLogs termStart
        settings)[i]? = some r)
    (Hfs : ∀ p ∈ projects, ∃ a : ℕ, flowStartDailyAmtQ p = 10 * (a : ℚ))
    (Hfe : ∀ p ∈ projects, ∃ a : ℕ, flowEndDailyAmtQ p = 10 * (a : ℚ))
    (Hst : ∀ p ∈ projects, ∃ c : ℕ,
      stockTimeChargeCash p r.date.year r.date.month = 10 * (c : ℤ))
    (Hpd : ∀ p ∈ projects,
      p.billingConfig.stockPayDay = 0 ∨ p.billingConfig.stockPayDay = 99 ∨
        (1 ≤ (p.billingConfig.stockPayDay : ℤ) ∧
          (p.billingConfig.stockPayDay : ℤ) ≤
            getTotalDays r.date.year r.date.month))
    (Hit : ∀ item ∈ settings.cashFlowItems, item.isRecurring = true →
      cashFlowItemOccurs item r.date = true →
      item.payDay = 99 ∨ item.payDay = 0 ∨
        (1 ≤ item.payDay ∧ (item.payDay : ℤ) ≤
          getTotalDays r.date.year r.date.month)) :
    ((generateDailyCashFlow r.date projects settings b).map
      (fun rec => rec.change)).sum
      = r.totalCashIn - r.totalCashOut + r.cost := by
  have hlen := generateProjectionsAux_length today projects employees workLogs
    termStart settings 12 0 settings.initialCashBalance
  have hi : i < 12 := by
    by_contra hge
    rw [generateProjections, List.getElem?_eq_none (by omega)] at hr
    exact Option.noConfusion hr
  have hget := generateProjectionsAux_get today projects employees workLogs
    termStart settings 12 0 settings.initialCashBalance i hi
  rw [generateProjections] at hr
  rw [hget] at hr
  have hrv := (Option.some.injEq _ _).mp hr
  subst hrv
  have hdv : (termMonthDate termStart (0 + i)).Valid := mkDate_valid _ _ _
  have hd1 : (termMonthDate termStart (0 + i)).day = 1 := by
    show (mkDate termStart.year (termStart.month + ((0 + i : ℕ) : ℤ)) 1).day = 1
    rw [mkDate_first]
  have Hst2 : ∀ p ∈ projects, ∃ c : ℕ,
      stockTimeChargeCash p (termMonthDate termStart (0 + i)).year
        (termMonthDate termStart (0 + i)).month = 10 * (c : ℤ) := Hst
  have Hpd2 : ∀ p ∈ projects,
      p.billingConfig.stockPayDay = 0 ∨ p.billingConfig.stockPayDay = 99 ∨
        (1 ≤ (p.billingConfig.stockPayDay : ℤ) ∧
          (p.billingConfig.stockPayDay : ℤ) ≤
            getTotalDays (termMonthDate termStart (0 + i)).year
              (termMonthDate termStart (0 + i)).month) := Hpd
  have Hit2 : ∀ item ∈ settings.cashFlowItems, item.isRecurring = true →
      cashFlowItemOccurs item (termMonthDate termStart (0 + i)) = true →
      item.payDay = 99 ∨ item.payDay = 0 ∨
        (1 ≤ item.payDay ∧ (item.payDay : ℤ) ≤
          getTotalDays (termMonthDate termStart (0 + i)).year
            (termMonthDate termStart (0 + i)).month) := Hit
  show ((generateDailyCashFlow (termMonthDate termStart (0 + i)) projects
      settings b).map (fun rec => rec.change)).sum
    = monthTotalCashIn projects settings (termMonthDate termStart (0 + i))
      - monthTotalCashOut today projects employees workLogs settings
          (termMonthDate termStart (0 + i))
      + monthPaidCost today projects employees workLogs
          (termMonthDate termStart (0 + i))
  revert hdv hd1 Hst2 Hpd2 Hit2
  generalize termMonthDate termStart (0 + i) = d
  intro hdv hd1 Hst2 Hpd2 Hit2
  rw [generateDailyCashFlow_changes]
  unfold dailyChangeAt
  rw [list_sum_map_add (List.range (getTotalDays d.year d.month).toNat)
    (fun (k : ℕ) => (projects.map (fun p =>
      flowStartDaily p d.year d.month (1 + (k : ℤ)) +
        flowEndDaily p d.year d.month (1 + (k : ℤ)) +
        stockDaily p d.year d.month (1 + (k : ℤ)))).sum)
    (fun (k : ℕ) => (settings.cashFlowItems.map (fun item =>
      itemDaily item d.year d.month (1 + (k : ℤ)))).sum)]
  rw [sum_comm_list projects (getTotalDays d.year d.month).toNat
    (fun p (k : ℕ) =>
      flowStartDaily p d.year d.month (1 + (k : ℤ)) +
        flowEndDaily p d.year d.month (1 + (k : ℤ)) +
        stockDaily p d.year d.month (1 + (k : ℤ)))]
  rw [sum_comm_list settings.cashFlowItems (getTotalDays d.year d.month).toNat
    (fun item (k : ℕ) => itemDaily item d.year d.month (1 + (k : ℤ)))]
  obtain ⟨M, hM1, hM2⟩ := c3_projects_sum projects d.year d.month
    ⟨hdv.1, hdv.2.1⟩ Hfs Hfe Hst2 Hpd2
  rw [hM2]
  rw [c3_items_total settings d hdv hd1 Hit2]
  unfold monthTotalCashIn monthTotalCashOut monthCashIn
  rw [hM1]
  rw [show (10 : ℚ) * (M : ℚ) * (11 / 10) = ((11 * (M : ℤ) : ℤ) : ℚ) by
    push_cast; ring]
  rw [Int.floor_intCast]
  ring

/-- Concrete instance of the amended C3: with no projects and no ledger
items both paths move no cash in month 2. -/
theorem c3_daily_monthly_consistency_witness :
    ((generateProjections ⟨2099, 0, 1⟩ [] [] [] (mkDate 2024 11 1)
        sampleSettings)[2]?).isSome = true ∧
      ((generateProjections ⟨2099, 0, 1⟩ [] [] [] (mkDate 2024 11 1)
          sampleSettings)[2]?).map
        (fun r => ((generateDailyCashFlow r.date [] sampleSettings 5).map
          (fun rec => rec.change)).sum)
      = ((generateProjections ⟨2099, 0, 1⟩ [] [] [] (mkDate 2024 11 1)
          sampleSettings)[2]?).map
        (fun r => r.totalCashIn - r.totalCashOut + r.cost) := by
  constructor
  · decide
  · cases hr : (generateProjections ⟨2099, 0, 1⟩ [] [] [] (mkDate 2024 11 1)
        sampleSettings)[2]? with
    | none => exact absurd hr (by decide)
    | some r =>
      rw [Option.map_some', Option.map_some']
      exact congrArg some (c3_daily_monthly_consistency ⟨2099, 0, 1⟩ [] [] []
        (mkDate 2024 11 1) sampleSettings 2 r 5 hr
        (by simp) (by simp) (by simp) (by simp) (by simp [sampleSettings]))

/-- The original C3 claim is false: on `sampleLabor` the monthly path
pays 250,000 yen of arrears labor in month 1 while the daily path posts
nothing, so the daily total exceeds `totalCashIn - totalCashOut` by
exactly the labor payment. -/
theorem c3_daily_monthly_counterexample :
    ((generateProjections ⟨2000, 0, 1⟩ [sampleLabor] [sampleEmployee] []
        (mkDate 2024 11 1) sampleSettings)[1]?).map
      (fun r => ((generateDailyCashFlow r.date [sampleLabor] sampleSettings
          0).map (fun rec => rec.change)).sum - (r.totalCashIn - r.totalCashOut))
      = some 250000 := by
  rw [generateProjections]
  rw [generateProjectionsAux_get ⟨2000, 0, 1⟩ [sampleLabor] [sampleEmployee] []
    (mkDate 2024 11 1) sampleSettings 12 0 sampleSettings.initialCashBalance 1
    (by omega)]
  simp only [Option.map_some']
  congr 1
  rw [monthRecordAt_change_eq, monthRecordAt_date]
  have hdate : termMonthDate (mkDate 2024 11 1) (0 + 1) = ⟨2025, 0, 1⟩ := by
    decide
  rw [hdate]
  have hds : ((generateDailyCashFlow (⟨2025, 0, 1⟩ : JDate) [sampleLabor]
      sampleSettings 0).map (fun rec => rec.change)).sum = 0 := by decide
  rw [hds]
  have hcost : getProjectMonthlyCost sampleLabor [sampleEmployee] 2024 11
      = 250000 := by
    unfold getProjectMonthlyCost
    rw [if_neg (by decide)]
    have hac : assignmentsCost sampleLabor [sampleEmployee] 2024 11
        = (250000 : ℚ) := by
      unfold assignmentsCost
      simp [sampleLabor, sampleEmployee, getEmployeeMonthlyData, lookupYM]
      norm_num
    rw [hac]
    norm_num
  have hq : monthCashInQ [sampleLabor] (2025 : ℤ) (0 : ℤ) = 0 := by
    unfold monthCashInQ
    simp only [List.map_cons, List.map_nil, List.sum_cons, List.sum_nil]
    rw [show flowStartCashQ sampleLabor 2025 0 = 0 by
        unfold flowStartCashQ; rw [if_neg (by decide)]]
    rw [show flowEndCashQ sampleLabor 2025 0 = 0 by
        unfold flowEndCashQ; rw [if_neg (by decide)]]
    rw [show stockTimeChargeCash sampleLabor 2025 0 = 0 by decide]
    norm_num
  have hch : monthChange ⟨2000, 0, 1⟩ [sampleLabor] [sampleEmployee] []
      (mkDate 2024 11 1) sampleSettings (0 + 1) = -250000 := by
    unfold monthChange
    rw [hdate]
    have hin : monthTotalCashIn [sampleLabor] sampleSettings ⟨2025, 0, 1⟩
        = 0 := by
      unfold monthTotalCashIn
      show monthCashIn [sampleLabor] 2025 0 +
        monthFinancialIn sampleSettings ⟨2025, 0, 1⟩ = 0
      rw [show monthFinancialIn sampleSettings ⟨2025, 0, 1⟩ = 0 by decide]
      unfold monthCashIn
      rw [hq]
      norm_num
    have hout : monthTotalCashOut ⟨2000, 0, 1⟩ [sampleLabor] [sampleEmployee]
        [] sampleSettings ⟨2025, 0, 1⟩ = 250000 := by
      unfold monthTotalCashOut
      rw [show monthSga sampleSettings ⟨2025, 0, 1⟩ = 0 by decide]
      rw [show monthTaxRepayment sampleSettings ⟨2025, 0, 1⟩ = 0 by decide]
      rw [show monthInvestment sampleSettings ⟨2025, 0, 1⟩ = 0 by decide]
      unfold monthPaidCost
      simp only [List.map_cons, List.map_nil, List.sum_cons, List.sum_nil]
      rw [if_neg (by decide)]
      show getProjectMonthlyCost sampleLabor [sampleEmployee] 2024 11 + 0 +
        0 + 0 + 0 = 250000
      rw [hcost]
      norm_num
    rw [hin, hout]
    norm_num
  rw [hch]
  norm_num
